import Mathlib

/-!
# Verification of the legal-tabular-review backend

A shallow embedding of the review platform's backend services
(`backend/app/services/*.py`) together with proofs about them.

Conventions of the embedding:
* Python `str` values become `String`; nullable values become `Option`.
* Python `float` confidences, thresholds and amounts become `ℚ`.
* Database rows become Lean structures, one structure per ORM entity;
  a table becomes a `List` of rows and a session becomes explicit state
  passing.
* The fixed regular expressions that the services apply through
  `re.search` are embedded as dedicated total matching functions whose
  alternative order mirrors the backtracking order of the Python `re`
  engine on those concrete patterns (greedy quantifiers try the longer
  alternative first, the search tries start positions left to right).
  Character classes are read at ASCII scope.
-/

namespace LegalReview

/-! ## Character classes and low-level scanning helpers -/

/-- Python `\s` at ASCII scope: space, tab, newline, vertical tab, form feed,
carriage return. -/
def isSpaceChar (c : Char) : Bool :=
  c = ' ' || c = '\t' || c = '\n' || c = '\x0b' || c = '\x0c' || c = '\r'

/-- Python `\d` at ASCII scope. -/
def isDigitChar (c : Char) : Bool := c.isDigit

/-- Python `\w` at ASCII scope: letters, digits and underscore. -/
def isWordChar (c : Char) : Bool := c.isAlphanum || c = '_'

/-- `[A-Za-z]`. -/
def isAsciiLetter (c : Char) : Bool :=
  ('A' ≤ c && c ≤ 'Z') || ('a' ≤ c && c ≤ 'z')

/-- Maximal run of characters satisfying `p`, returned with the rest. -/
def takeRun (p : Char → Bool) (cs : List Char) : List Char × List Char :=
  (cs.takeWhile p, cs.dropWhile p)

/-- Take exactly `n` digits, or fail. -/
def takeExactDigits : ℕ → List Char → Option (List Char × List Char)
  | 0, cs => some ([], cs)
  | _ + 1, [] => none
  | n + 1, c :: cs =>
    if isDigitChar c then
      (takeExactDigits n cs).map (fun p => (c :: p.1, p.2))
    else
      none

/-- Semantics of `re.search` over a fixed pattern matcher `m`: try every start position
left to right, including the position at the end of the string. -/
def searchAux {α : Type} (m : List Char → Option α) : List Char → Option α
  | [] => m []
  | c :: cs => (m (c :: cs)).orElse (fun _ => searchAux m cs)

/-- Lower-case one ASCII character (`str.lower` at ASCII scope). -/
def lowerChar (c : Char) : Char :=
  if 'A' ≤ c ∧ c ≤ 'Z' then Char.ofNat (c.toNat + 32) else c

/-- Upper-case one ASCII character (`str.upper` at ASCII scope). -/
def upperChar (c : Char) : Char :=
  if 'a' ≤ c ∧ c ≤ 'z' then Char.ofNat (c.toNat - 32) else c

/-- Python `str.lower()`. -/
def strLower (s : String) : String := String.mk (s.toList.map lowerChar)

/-- Python `str.upper()`. -/
def strUpper (s : String) : String := String.mk (s.toList.map upperChar)

/-- Python `str.strip()`: drop leading and trailing whitespace. -/
def pyStrip (s : String) : String :=
  String.mk (((s.toList.dropWhile isSpaceChar).reverse.dropWhile isSpaceChar).reverse)

/-- Python `str.replace(a, b)` for one-character patterns. -/
def replaceChar (s : String) (a b : Char) : String :=
  String.mk (s.toList.map (fun c => if c = a then b else c))

/-- Python `str.replace(a, "")` for a one-character pattern. -/
def removeChar (s : String) (a : Char) : String :=
  String.mk (s.toList.filter (fun c => ¬(c = a)))

/-- Python `str.split(sep)` for a one-character separator, keeping empty
pieces.  The accumulator carries the current piece reversed. -/
def splitOnCharAux (sep : Char) : List Char → List Char → List (List Char)
  | [], acc => [acc.reverse]
  | c :: cs, acc =>
    if c = sep then acc.reverse :: splitOnCharAux sep cs []
    else splitOnCharAux sep cs (c :: acc)

/-- Python `str.split(sep)` for a one-character separator. -/
def splitOnChar (s : String) (sep : Char) : List String :=
  (splitOnCharAux sep s.toList []).map String.mk

/-- Python `str.zfill(2)`. -/
def zfill2 (s : String) : String :=
  if s.length < 2 then String.mk (List.replicate (2 - s.length) '0') ++ s else s

/-- Decimal value of a digit list (most significant first). -/
def digitsVal (cs : List Char) : ℕ :=
  cs.foldl (fun a c => a * 10 + (c.toNat - '0'.toNat)) 0

/-! ## Normalizer (`backend/app/services/normalizer.py`) -/

/-- Table `Normalizer.MONTHS`: full month names and three-letter abbreviations. -/
def monthsTable : List (String × String) :=
  [("january", "01"), ("february", "02"), ("march", "03"), ("april", "04"),
   ("may", "05"), ("june", "06"), ("july", "07"), ("august", "08"),
   ("september", "09"), ("october", "10"), ("november", "11"), ("december", "12"),
   ("jan", "01"), ("feb", "02"), ("mar", "03"), ("apr", "04"),
   ("jun", "06"), ("jul", "07"), ("aug", "08"), ("sep", "09"),
   ("oct", "10"), ("nov", "11"), ("dec", "12")]

/-- Lookup `MONTHS.get(name)` on the lower-cased token. -/
def monthLookup (name : String) : Option String :=
  (monthsTable.find? (fun kv => kv.1 = name)).map (fun kv => kv.2)

/-- Tail `\s+(\d{4})` of the "token day, year" patterns: returns the
captured year. -/
def matchTokDayYearTail (r : List Char) : Option String :=
  let sp2 := takeRun isSpaceChar r
  if sp2.1.isEmpty then none
  else
    match takeExactDigits 4 sp2.2 with
    | some (y, _) => some (String.mk y)
    | none => none

/-- Continuation after the day digits of the "token day, year" pattern:
`,?\s+(\d{4})`, the optional comma tried greedily. -/
def matchTokDayYearComma (r : List Char) : Option String :=
  match r with
  | ',' :: rest => (matchTokDayYearTail rest).orElse (fun _ => matchTokDayYearTail r)
  | _ => matchTokDayYearTail r

/-- One start position of `(tok+)\s+(\d{1,2}),?\s+(\d{4})`, the first
group's character class a parameter so that the calibration pattern
`[A-Za-z]+\s+\d{1,2},?\s+\d{4}` can reuse it; returns the capture groups. -/
def matchTokDayYearAt (isTok : Char → Bool) (cs : List Char) :
    Option (String × String × String) :=
  let w := takeRun isTok cs
  if w.1.isEmpty then none
  else
    let sp := takeRun isSpaceChar w.2
    if sp.1.isEmpty then none
    else
      let tryDay : ℕ → Option (String × String × String) := fun dlen =>
        match takeExactDigits dlen sp.2 with
        | none => none
        | some (d, r3) =>
          (matchTokDayYearComma r3).map
            (fun y => (String.mk w.1, String.mk d, y))
      (tryDay 2).orElse (fun _ => tryDay 1)

/-- One start position of `(\d{1,2})\s+(\w+)\s+(\d{4})`. -/
def matchDayMonthYearAt (cs : List Char) : Option (String × String × String) :=
  let tryDay : ℕ → Option (String × String × String) := fun dlen =>
    match takeExactDigits dlen cs with
    | none => none
    | some (d, r1) =>
      let sp := takeRun isSpaceChar r1
      if sp.1.isEmpty then none
      else
        let w := takeRun isWordChar sp.2
        if w.1.isEmpty then none
        else
          let sp2 := takeRun isSpaceChar w.2
          if sp2.1.isEmpty then none
          else
            match takeExactDigits 4 sp2.2 with
            | some (y, _) => some (String.mk d, String.mk w.1, String.mk y)
            | none => none
  (tryDay 2).orElse (fun _ => tryDay 1)

/-- A `/` or `-` separator. -/
def isDateSep (c : Char) : Bool := c = '/' || c = '-'

/-- One start position of `(\d{1,2})[/\-](\d{1,2})[/\-](\d{4})`. -/
def matchNumericMDYAt (cs : List Char) : Option (String × String × String) :=
  let trySecond : List Char → String → ℕ → Option (String × String × String) :=
    fun r d1 dlen =>
      match takeExactDigits dlen r with
      | none => none
      | some (d2, r2) =>
        match r2 with
        | c :: r3 =>
          if isDateSep c then
            match takeExactDigits 4 r3 with
            | some (y, _) => some (d1, String.mk d2, String.mk y)
            | none => none
          else none
        | [] => none
  let tryFirst : ℕ → Option (String × String × String) := fun dlen =>
    match takeExactDigits dlen cs with
    | none => none
    | some (d1, r1) =>
      match r1 with
      | c :: r2 =>
        if isDateSep c then
          (trySecond r2 (String.mk d1) 2).orElse
            (fun _ => trySecond r2 (String.mk d1) 1)
        else none
      | [] => none
  (tryFirst 2).orElse (fun _ => tryFirst 1)

/-- One start position of `(\d{4})[/\-](\d{1,2})[/\-](\d{1,2})`. -/
def matchNumericYMDAt (cs : List Char) : Option (String × String × String) :=
  match takeExactDigits 4 cs with
  | none => none
  | some (y, r1) =>
    match r1 with
    | c :: r2 =>
      if isDateSep c then
        let tryMonth : ℕ → Option (String × String × String) := fun mlen =>
          match takeExactDigits mlen r2 with
          | none => none
          | some (m, r3) =>
            match r3 with
            | c2 :: r4 =>
              if isDateSep c2 then
                let tryDay : ℕ → Option (String × String × String) := fun dlen =>
                  (takeExactDigits dlen r4).map
                    (fun p => (String.mk y, String.mk m, String.mk p.1))
                (tryDay 2).orElse (fun _ => tryDay 1)
              else none
            | [] => none
        (tryMonth 2).orElse (fun _ => tryMonth 1)
      else none
    | [] => none

/-- Converter `Normalizer._parse_month_day_year`: the month token is looked up in
`MONTHS` with default `"01"`. -/
def parseMonthDayYear (g : String × String × String) : String :=
  g.2.2 ++ "-" ++ (monthLookup (strLower g.1)).getD "01" ++ "-" ++ zfill2 g.2.1

/-- Converter `Normalizer._parse_day_month_year`: groups are (day, month token, year). -/
def parseDayMonthYear (g : String × String × String) : String :=
  g.2.2 ++ "-" ++ (monthLookup (strLower g.2.1)).getD "01" ++ "-" ++ zfill2 g.1

/-- Function `Normalizer._normalize_date`: the four `re.search` attempts in source
order, first match wins; no pattern matching anywhere in the string returns
the input unchanged. -/
def normalizeDate (v : String) : String :=
  let cs := v.toList
  match searchAux (matchTokDayYearAt isWordChar) cs with
  | some g => parseMonthDayYear g
  | none =>
  match searchAux matchDayMonthYearAt cs with
  | some g => parseDayMonthYear g
  | none =>
  match searchAux matchNumericMDYAt cs with
  | some g => g.2.2 ++ "-" ++ zfill2 g.1 ++ "-" ++ zfill2 g.2.1
  | none =>
  match searchAux matchNumericYMDAt cs with
  | some g => g.1 ++ "-" ++ zfill2 g.2.1 ++ "-" ++ zfill2 g.2.2
  | none => v

/-! Number parsing and `{:,.2f}` formatting used by the currency and
percentage rules. -/

/-- Unsigned part of Python `float()` on the cleaned strings the
normalizer feeds it: digits with at most one decimal point, at least one
digit somewhere.  Exponent forms cannot occur after cleaning. -/
def parseUnsignedFloat (s : String) : Option ℚ :=
  match splitOnChar s '.' with
  | [intPart] =>
    if intPart ≠ "" ∧ intPart.toList.all isDigitChar then
      some ((digitsVal intPart.toList : ℤ) : ℚ)
    else none
  | [intPart, fracPart] =>
    if (intPart ++ fracPart) ≠ "" ∧ intPart.toList.all isDigitChar ∧
        fracPart.toList.all isDigitChar then
      some (((digitsVal intPart.toList : ℤ) : ℚ) +
        ((digitsVal fracPart.toList : ℤ) : ℚ) / ((10 : ℚ) ^ fracPart.length))
    else none
  | _ => none

/-- Python `float()` on sign-prefixed digit/point strings (as produced by
the services' cleaning steps; `inf`/`nan` word forms and exponents are out
of reach of those inputs). -/
def parseFloatQ (s : String) : Option ℚ :=
  match s.toList with
  | '-' :: rest => (parseUnsignedFloat (String.mk rest)).map Neg.neg
  | _ => parseUnsignedFloat s

/-- Round to an integer, ties to the even neighbour (the rounding Python's
float formatting applies, idealized over `ℚ`). -/
def roundHalfEven (q : ℚ) : ℤ :=
  let f := ⌊q⌋
  let r := q - (f : ℚ)
  if r < 1/2 then f
  else if 1/2 < r then f + 1
  else if Even f then f else f + 1

/-- Insert a comma after every third character of a reversed digit list. -/
def groupRev : List Char → List Char
  | a :: b :: c :: d :: rest => a :: b :: c :: ',' :: groupRev (d :: rest)
  | l => l

/-- Decimal rendering of a natural number with `,` thousands grouping. -/
def groupDigits (n : ℕ) : String :=
  String.mk (groupRev (Nat.toDigits 10 n).reverse).reverse

/-- Python `f"{q:,.2f}"` for a non-negative rational. -/
def formatGrouped2 (q : ℚ) : String :=
  let cents := (roundHalfEven (q * 100)).toNat
  groupDigits (cents / 100) ++ "." ++ zfill2 (toString (cents % 100))

/-- Last index of `c` in `cs`, for `str.rindex`; `none` when absent. -/
def lastIndexOf (cs : List Char) (c : Char) : Option ℕ :=
  (cs.enum.filter (fun p => p.2 = c)).getLast? |>.map (fun p => p.1)

/-- Function `Normalizer._parse_number`: disambiguate `,`/`.` as thousands versus
decimal separators. -/
def parseNumberStr (v : String) : String :=
  let cs := v.toList
  if cs.contains ',' ∧ cs.contains '.' then
    if (lastIndexOf cs ',').getD 0 > (lastIndexOf cs '.').getD 0 then
      (replaceChar (removeChar v '.') ',' '.')
    else
      removeChar v ','
  else if cs.contains ',' then
    let parts := splitOnChar v ','
    if (parts.getLastD "").length = 2 then replaceChar v ',' '.' else removeChar v ','
  else v

/-- Cleaning step `re.sub` keeping only digits, dots and commas. -/
def keepDigitsDotComma (v : String) : String :=
  String.mk (v.toList.filter (fun c => isDigitChar c || c = '.' || c = ','))

/-- Function `Normalizer._normalize_currency_usd`. -/
def normalizeCurrencyUsd (v : String) : String :=
  let cleaned := parseNumberStr (keepDigitsDotComma v)
  match parseFloatQ cleaned with
  | some q => "$" ++ formatGrouped2 q
  | none => v

/-- Function `Normalizer._normalize_currency_eur`: format US-style, then swap the
grouping and decimal characters through the `X` placeholder. -/
def normalizeCurrencyEur (v : String) : String :=
  let cleaned := parseNumberStr (keepDigitsDotComma v)
  match parseFloatQ cleaned with
  | some q =>
    "€" ++ replaceChar (replaceChar (replaceChar (formatGrouped2 q) ',' 'X') '.' ',') 'X' '.'
  | none => v

/-- First maximal run of characters satisfying `p` anywhere in the list. -/
def firstRun (p : Char → Bool) : List Char → Option (List Char)
  | [] => none
  | c :: cs => if p c then some (c :: cs.takeWhile p) else firstRun p cs

/-- Function `Normalizer._normalize_percentage`: first `[\d.,]+` run, commas turned
into decimal points, formatted `{:,.2f}%`. -/
def normalizePercentage (v : String) : String :=
  match firstRun (fun c => isDigitChar c || c = '.' || c = ',') v.toList with
  | none => v
  | some run =>
    match parseFloatQ (replaceChar (String.mk run) ',' '.') with
    | some q => formatGrouped2 q ++ "%"
    | none => v

/-- Function `Normalizer._normalize_phone`: strip all but digits and `+`. -/
def normalizePhone (v : String) : String :=
  let digits := v.toList.filter (fun c => isDigitChar c || c = '+')
  if digits.length = 10 then
    "+1-" ++ String.mk (digits.take 3) ++ "-" ++ String.mk ((digits.drop 3).take 3)
      ++ "-" ++ String.mk (digits.drop 6)
  else if digits.length = 11 ∧ digits.head? = some '1' then
    "+" ++ String.mk (digits.take 1) ++ "-" ++ String.mk ((digits.drop 1).take 3)
      ++ "-" ++ String.mk ((digits.drop 4).take 3) ++ "-" ++ String.mk (digits.drop 7)
  else v

/-- Split on whitespace runs, dropping empty pieces (Python `str.split()`).
The accumulator carries the current word reversed. -/
def splitWsAux : List Char → List Char → List (List Char)
  | [], acc => if acc.isEmpty then [] else [acc.reverse]
  | c :: cs, acc =>
    if isSpaceChar c then
      if acc.isEmpty then splitWsAux cs [] else acc.reverse :: splitWsAux cs []
    else splitWsAux cs (c :: acc)

/-- The trim rule's body: collapse whitespace runs to single spaces. -/
def collapseWs (v : String) : String :=
  String.intercalate " " ((splitWsAux v.toList []).map String.mk)

/-- The rule-name table of `Normalizer.normalize`. -/
def normalizerFor (rule : String) : Option (String → String) :=
  if rule = "iso_date" then some normalizeDate
  else if rule = "uppercase" then some (fun v => pyStrip (strUpper v))
  else if rule = "lowercase" then some (fun v => pyStrip (strLower v))
  else if rule = "currency_usd" then some normalizeCurrencyUsd
  else if rule = "currency_eur" then some normalizeCurrencyEur
  else if rule = "phone" then some normalizePhone
  else if rule = "email" then some (fun v => pyStrip (strLower v))
  else if rule = "percentage" then some normalizePercentage
  else if rule = "trim" then some collapseWs
  else none

/-- The nine supported rule names, for stating the identity law. -/
def supportedRules : List String :=
  ["iso_date", "uppercase", "lowercase", "currency_usd", "currency_eur",
   "phone", "email", "percentage", "trim"]

/-- Entry point `Normalizer.normalize`: absent value, absent/empty rule, or unknown
rule name (after lower-casing) returns the value unchanged. -/
def Normalizer.normalize (value : Option String) (rule : Option String) :
    Option String :=
  match value with
  | none => none
  | some v =>
    match rule with
    | none => some v
    | some r =>
      if r = "" then some v
      else
        match normalizerFor (strLower r) with
        | some f => some (f v)
        | none => some v

/-! ## A small regular-expression engine

The validation rules carry caller-supplied regexes (`rules["pattern"]`).
The embedding represents such a regex as an abstract syntax tree and gives
it the standard derivative-based semantics, so that both Python's
`re.match` (a match starting at position 0, the code's behavior) and
`re.fullmatch` (a match of the entire string, the documented behavior)
are definable and comparable. -/

inductive RE : Type where
  | emp : RE
  | cls : (Char → Bool) → RE
  | seq : RE → RE → RE
  | alt : RE → RE → RE
  | star : RE → RE

/-- Does the expression accept the empty string? -/
def RE.nullable : RE → Bool
  | .emp => true
  | .cls _ => false
  | .seq a b => a.nullable && b.nullable
  | .alt a b => a.nullable || b.nullable
  | .star _ => true

/-- Brzozowski derivative with respect to one character. -/
def RE.deriv : RE → Char → RE
  | .emp, _ => .cls (fun _ => false)
  | .cls p, c => if p c then .emp else .cls (fun _ => false)
  | .seq a b, c =>
    if a.nullable then .alt (.seq (a.deriv c) b) (b.deriv c)
    else .seq (a.deriv c) b
  | .alt a b, c => .alt (a.deriv c) (b.deriv c)
  | .star a, c => .seq (a.deriv c) (.star a)

/-- Acceptance of a whole character list: `re.fullmatch` semantics. -/
def RE.acceptsList (r : RE) : List Char → Bool
  | [] => r.nullable
  | c :: cs => (r.deriv c).acceptsList cs

/-- Python `re.fullmatch(r, s)` truthiness. -/
def reFullmatch (r : RE) (s : String) : Bool :=
  r.acceptsList s.toList

/-- Python `re.match(r, s)` truthiness: some prefix of `s` (possibly
empty, possibly proper) is accepted. -/
def reMatchList (r : RE) : List Char → Bool
  | [] => r.nullable
  | c :: cs => r.nullable || reMatchList (r.deriv c) cs

/-- Python `re.match(r, s)` truthiness on a string. -/
def reMatch (r : RE) (s : String) : Bool :=
  reMatchList r s.toList

/-- One-or-more repetition, for writing concrete regexes like `[A-Z]+`. -/
def RE.plus (r : RE) : RE := .seq r (.star r)

/-! ## Data model (`backend/app/models/*.py`), restricted to the entities
and columns the verified services read or write -/

/-- Rows of `template_fields`. `validation_rules` is modelled below on the
field record that the validation service receives. -/
structure TemplateField where
  id : ℕ
  field_name : String
  field_label : String
  field_type : String
  normalization_rule : Option String := none
  is_required : Bool := false
  deriving Repr, DecidableEq

/-- The structured `validation_rules` JSON of a field: presence of a key
becomes `some`.  `pattern` holds the caller's regex as a tree. -/
structure ValidationRules where
  pattern : Option RE := none
  min : Option ℚ := none
  max : Option ℚ := none
  min_date : Option String := none
  max_date : Option String := none
  min_length : Option ℕ := none
  max_length : Option ℕ := none
  positive_only : Option Bool := none

/-- Rows of `documents` (the columns extraction reads). -/
structure Document where
  id : ℕ
  status : String
  content : Option String := none
  deriving Repr, DecidableEq

/-- Rows of `extracted_values`. -/
structure ExtractedValue where
  id : ℕ := 0
  document_id : ℕ
  template_field_id : ℕ
  project_id : ℕ
  raw_value : Option String := none
  normalized_value : Option String := none
  confidence : ℚ := 0
  citation : Option String := none
  citation_text : Option String := none
  status : String := "pending"
  reviewed_by : Option String := none
  reviewed_at : Option ℕ := none
  deriving Repr, DecidableEq

/-- Rows of `project_settings`, with the model's column defaults. -/
structure ProjectSettings where
  project_id : ℕ
  auto_approve_enabled : Bool := false
  auto_approve_threshold : ℚ := 9/10
  notify_on_extraction_complete : Bool := false
  notify_on_low_confidence : Bool := false
  low_confidence_threshold : ℚ := 1/2
  deriving Repr, DecidableEq

/-- JSON snapshots carried by audit rows. -/
inductive JsonVal : Type where
  | null : JsonVal
  | str : String → JsonVal
  | num : ℚ → JsonVal
  | obj : List (String × JsonVal) → JsonVal

/-- Rows of `audit_logs`. -/
structure AuditLog where
  entity_type : String
  entity_id : ℕ
  user : String
  action : String
  old_value : Option JsonVal := none
  new_value : Option JsonVal := none
  description : Option String := none
  project_id : Option ℕ := none
  document_id : Option ℕ := none
  created_at : ℕ

/-! ## Settings service (`backend/app/services/settings_service.py`) -/

/-- Method `SettingsService.should_auto_approve`, with the queried
settings row passed explicitly: no row or disabled auto-approval refuses,
otherwise compare the confidence against the threshold. -/
def shouldAutoApprove (row : Option ProjectSettings) (confidence : ℚ) : Bool :=
  match row with
  | none => false
  | some s => if ¬s.auto_approve_enabled then false else confidence ≥ s.auto_approve_threshold

/-- Method `SettingsService.is_low_confidence`. -/
def isLowConfidence (row : Option ProjectSettings) (confidence : ℚ) : Bool :=
  match row with
  | none => confidence < 1/2
  | some s => confidence < s.low_confidence_threshold

/-! ## Validation service (`backend/app/services/validation_service.py`) -/

/-- One entry of the returned error list. -/
structure ValidationErr where
  rule : String
  message : String
  deriving Repr, DecidableEq

/-- Python truthiness of the `x or y` fallback on two nullable strings. -/
def pyOrStr (a b : Option String) : Option String :=
  match a with
  | some s => if s = "" then b else some s
  | none => b

/-- Falsiness of a nullable string (`not x`). -/
def isFalsyStr (o : Option String) : Bool :=
  match o with
  | none => true
  | some s => s = ""

/-- Python `x or "user"` on a nullable string (an empty string is falsy). -/
def pyOrDefaultUser (o : Option String) : String :=
  match o with
  | some s => if s = "" then "user" else s
  | none => "user"

/-- Month-number token of `strptime`'s `%m` directive
(`1[0-2]|0[1-9]|[1-9]`), alternatives in the directive's order. -/
def parseMonthNum : List Char → Option (ℕ × List Char)
  | '1' :: c :: rest =>
    if '0' ≤ c ∧ c ≤ '2' then some (10 + (c.toNat - '0'.toNat), rest)
    else some (1, c :: rest)
  | '0' :: c :: rest =>
    if '1' ≤ c ∧ c ≤ '9' then some (c.toNat - '0'.toNat, rest) else none
  | c :: rest =>
    if '1' ≤ c ∧ c ≤ '9' then some (c.toNat - '0'.toNat, rest) else none
  | [] => none

/-- Day-number token of `strptime`'s `%d` directive
(`3[01]|[12]\d|0[1-9]|[1-9]`). -/
def parseDayNum : List Char → Option (ℕ × List Char)
  | '3' :: c :: rest =>
    if c = '0' ∨ c = '1' then some (30 + (c.toNat - '0'.toNat), rest)
    else some (3, c :: rest)
  | c :: d :: rest =>
    if (c = '1' ∨ c = '2') ∧ isDigitChar d then
      some ((c.toNat - '0'.toNat) * 10 + (d.toNat - '0'.toNat), rest)
    else if c = '0' then
      (if '1' ≤ d ∧ d ≤ '9' then some (d.toNat - '0'.toNat, rest) else none)
    else if '1' ≤ c ∧ c ≤ '9' then some (c.toNat - '0'.toNat, d :: rest)
    else none
  | [c] => if '1' ≤ c ∧ c ≤ '9' then some (c.toNat - '0'.toNat, []) else none
  | [] => none

/-- Year token of `strptime`'s `%Y` directive: exactly four digits. -/
def parseYearNum (cs : List Char) : Option (ℕ × List Char) :=
  (takeExactDigits 4 cs).map (fun p => (digitsVal p.1, p.2))

/-- Days in a month of the proleptic Gregorian calendar, as validated by
the `datetime.date` constructor. -/
def daysInMonth (y m : ℕ) : ℕ :=
  if m = 2 then
    if y % 4 = 0 ∧ (y % 100 ≠ 0 ∨ y % 400 = 0) then 29 else 28
  else if m = 4 ∨ m = 6 ∨ m = 9 ∨ m = 11 then 30
  else 31

/-- Validity check the `datetime` constructor performs after the format
regex: year within `MINYEAR..MAXYEAR`, day within the month. -/
def validYMD (y m d : ℕ) : Bool :=
  1 ≤ y ∧ y ≤ 9999 ∧ 1 ≤ m ∧ m ≤ 12 ∧ 1 ≤ d ∧ d ≤ daysInMonth y m

/-- Case-insensitive month-name prefix for `%B`/`%b`: try each table name
longest first, returning the month number and the rest of the input. -/
def parseMonthName (names : List (String × ℕ)) (cs : List Char) :
    Option (ℕ × List Char) :=
  names.foldl
    (fun acc nm =>
      match acc with
      | some r => some r
      | none =>
        let pat := nm.1.toList
        if (cs.take pat.length).map lowerChar = pat then
          some (nm.2, cs.drop pat.length)
        else none)
    none

/-- Full month names with numbers, longest name first (as `strptime`
orders its alternation). -/
def fullMonthNames : List (String × ℕ) :=
  [("september", 9), ("february", 2), ("november", 11), ("december", 12),
   ("january", 1), ("october", 10), ("august", 8), ("march", 3),
   ("april", 4), ("june", 6), ("july", 7), ("may", 5)]

/-- Abbreviated month names with numbers. -/
def abbrMonthNames : List (String × ℕ) :=
  [("jan", 1), ("feb", 2), ("mar", 3), ("apr", 4), ("may", 5), ("jun", 6),
   ("jul", 7), ("aug", 8), ("sep", 9), ("oct", 10), ("nov", 11), ("dec", 12)]

/-- A run of whitespace, required (format-string whitespace matches
`\s+`). -/
def skipWs1 (cs : List Char) : Option (List Char) :=
  let sp := takeRun isSpaceChar cs
  if sp.1.isEmpty then none else some sp.2

/-- Date parse result as a comparable number `y*10000 + m*100 + d`
(`datetime` comparison is lexicographic on the components). -/
def ymdOrd (y m d : ℕ) : ℕ := y * 10000 + m * 100 + d

/-- Wrap a fully-consumed, constructor-validated parse. -/
def finishYMD (y m d : ℕ) (rest : List Char) : Option ℕ :=
  if rest.isEmpty ∧ validYMD y m d then some (ymdOrd y m d) else none

/-- Parse with format `%Y-%m-%d`. -/
def strptimeYmd (cs : List Char) : Option ℕ :=
  match parseYearNum cs with
  | some (y, '-' :: r1) =>
    match parseMonthNum r1 with
    | some (m, '-' :: r2) =>
      match parseDayNum r2 with
      | some (d, r3) => finishYMD y m d r3
      | none => none
    | _ => none
  | _ => none

/-- Parse with format `%m/%d/%Y`. -/
def strptimeMdy (cs : List Char) : Option ℕ :=
  match parseMonthNum cs with
  | some (m, '/' :: r1) =>
    match parseDayNum r1 with
    | some (d, '/' :: r2) =>
      match parseYearNum r2 with
      | some (y, r3) => finishYMD y m d r3
      | none => none
    | _ => none
  | _ => none

/-- Parse with format `%d/%m/%Y`. -/
def strptimeDmy (cs : List Char) : Option ℕ :=
  match parseDayNum cs with
  | some (d, '/' :: r1) =>
    match parseMonthNum r1 with
    | some (m, '/' :: r2) =>
      match parseYearNum r2 with
      | some (y, r3) => finishYMD y m d r3
      | none => none
    | _ => none
  | _ => none

/-- Parse with format `"%B %d, %Y"` or `"%b %d, %Y"` depending on the
name table given. -/
def strptimeNameDy (names : List (String × ℕ)) (cs : List Char) : Option ℕ :=
  match parseMonthName names cs with
  | none => none
  | some (m, r1) =>
    match skipWs1 r1 with
    | none => none
    | some r2 =>
      match parseDayNum r2 with
      | some (d, ',' :: r3) =>
        match skipWs1 r3 with
        | none => none
        | some r4 =>
          match parseYearNum r4 with
          | some (y, r5) => finishYMD y m d r5
          | none => none
      | _ => none

/-- The date-parsing loop of `ValidationService._validate_date`: the five
formats tried in source order, first success wins. -/
def parseDateValue (v : String) : Option ℕ :=
  let cs := v.toList
  (strptimeYmd cs).orElse fun _ =>
  (strptimeMdy cs).orElse fun _ =>
  (strptimeDmy cs).orElse fun _ =>
  (strptimeNameDy fullMonthNames cs).orElse fun _ =>
  strptimeNameDy abbrMonthNames cs

/-- Method `ValidationService._validate_date`. -/
def validateDate (value : String) (rules : ValidationRules) (label : String) :
    List ValidationErr :=
  match parseDateValue value with
  | none => [⟨"date_format", label ++ " is not a valid date format"⟩]
  | some parsed =>
    (match rules.min_date with
     | some minS =>
       match parseDateValue minS with
       | some minD =>
         if parsed < minD then
           [⟨"min_date", label ++ " must be on or after " ++ minS⟩]
         else []
       | none => []
     | none => []) ++
    (match rules.max_date with
     | some maxS =>
       match parseDateValue maxS with
       | some maxD =>
         if parsed > maxD then
           [⟨"max_date", label ++ " must be on or before " ++ maxS⟩]
         else []
       | none => []
     | none => [])

/-- Method `ValidationService._validate_currency`: strip all but digits,
dots and minus signs, then parse as a float. -/
def validateCurrency (value : String) (rules : ValidationRules) (label : String) :
    List ValidationErr :=
  let numericStr := String.mk (value.toList.filter
    (fun c => isDigitChar c || c = '.' || c = '-'))
  match parseFloatQ numericStr with
  | none => [⟨"currency_format", label ++ " is not a valid currency amount"⟩]
  | some amount =>
    (match rules.min with
     | some mn => if amount < mn then [⟨"min", label ++ " must be at least " ++ toString mn⟩] else []
     | none => []) ++
    (match rules.max with
     | some mx => if amount > mx then [⟨"max", label ++ " must be at most " ++ toString mx⟩] else []
     | none => []) ++
    (if (rules.positive_only.getD false) ∧ amount < 0 then
       [⟨"positive_only", label ++ " must be a positive amount"⟩]
     else [])

/-- Method `ValidationService._validate_number`: drop commas, parse as a
float. -/
def validateNumber (value : String) (rules : ValidationRules) (label : String) :
    List ValidationErr :=
  match parseFloatQ (removeChar value ',') with
  | none => [⟨"number_format", label ++ " is not a valid number"⟩]
  | some num =>
    (match rules.min with
     | some mn => if num < mn then [⟨"min", label ++ " must be at least " ++ toString mn⟩] else []
     | none => []) ++
    (match rules.max with
     | some mx => if num > mx then [⟨"max", label ++ " must be at most " ++ toString mx⟩] else []
     | none => [])

/-- The field record `ValidationService.validate_value` receives: the
field columns plus its parsed `validation_rules` (or `none`). -/
structure FieldWithRules where
  field : TemplateField
  validation_rules : Option ValidationRules := none

/-- Method `ValidationService.validate_value` on one extracted value and
its (possibly absent) field: required check short-circuits, then the
type-specific checks, then the `pattern` rule via `re.match`, then the
length bounds. -/
def validateValue (value : ExtractedValue) (fieldOpt : Option FieldWithRules) :
    List ValidationErr :=
  match fieldOpt with
  | none => []
  | some fw =>
    let field := fw.field
    let rules := fw.validation_rules.getD {}
    let rawOpt := pyOrStr value.normalized_value value.raw_value
    if field.is_required ∧ isFalsyStr rawOpt then
      [⟨"required", field.field_label ++ " is required but has no value"⟩]
    else if isFalsyStr rawOpt then []
    else
      let rv := rawOpt.getD ""
      let fieldType := strLower field.field_type
      (if fieldType = "date" then validateDate rv rules field.field_label
       else if fieldType = "currency" then validateCurrency rv rules field.field_label
       else if fieldType = "number" ∨ fieldType = "integer" then
         validateNumber rv rules field.field_label
       else []) ++
      (match rules.pattern with
       | some r =>
         if ¬reMatch r rv then
           [⟨"pattern", field.field_label ++ " does not match expected format"⟩]
         else []
       | none => []) ++
      (match rules.min_length with
       | some n => if rv.length < n then
           [⟨"min_length", field.field_label ++ " must be at least " ++
             toString n ++ " characters"⟩] else []
       | none => []) ++
      (match rules.max_length with
       | some n => if rv.length > n then
           [⟨"max_length", field.field_label ++ " must be at most " ++
             toString n ++ " characters"⟩] else []
       | none => [])

/-! ## AI confidence calibration
(`backend/app/services/ai_extraction_service.py` and its duplicate in
`backend/app/services/strategies/ai_strategy.py`, identical in logic) -/

/-- One parsed entry of the model's `extractions` array; a missing JSON
key becomes `none`. -/
structure RawExtraction where
  field_name : String
  value : Option String := none
  citation : Option String := none
  citation_text : Option String := none
  confidence : Option ℚ := none
  deriving Repr, DecidableEq

/-- Search for `\d{4}-\d{2}-\d{2}` at one start position. -/
def matchIsoShapeAt (cs : List Char) : Option Unit :=
  match takeExactDigits 4 cs with
  | some (_, '-' :: r1) =>
    match takeExactDigits 2 r1 with
    | some (_, '-' :: r2) =>
      match takeExactDigits 2 r2 with
      | some _ => some ()
      | none => none
    | _ => none
  | _ => none

/-- Search for `\d{1,2}/\d{1,2}/\d{4}` at one start position.  Unlike the
normalizer's numeric date pattern, the calibration's shape is slash-only
(no `-` separator). -/
def matchSlashMDYAt (cs : List Char) : Option Unit :=
  let trySecond : List Char → ℕ → Option Unit := fun r dlen =>
    match takeExactDigits dlen r with
    | none => none
    | some (_, r2) =>
      match r2 with
      | '/' :: r3 =>
        match takeExactDigits 4 r3 with
        | some _ => some ()
        | none => none
      | _ => none
  let tryFirst : ℕ → Option Unit := fun dlen =>
    match takeExactDigits dlen cs with
    | none => none
    | some (_, r1) =>
      match r1 with
      | '/' :: r2 => (trySecond r2 2).orElse (fun _ => trySecond r2 1)
      | _ => none
  (tryFirst 2).orElse (fun _ => tryFirst 1)

/-- Method `_looks_like_date`: any of the three recognized date shapes
occurs in the value. -/
def looksLikeDate (value : String) : Bool :=
  let cs := value.toList
  (searchAux matchIsoShapeAt cs).isSome ||
  (searchAux matchSlashMDYAt cs).isSome ||
  (searchAux (matchTokDayYearAt isAsciiLetter) cs).isSome

/-- Search for `[\$€£]\s*[\d,]+(?:\.\d{2})?` at one start position; the
optional cents group cannot fail the match, so the shape reduces to a
currency sign, optional spaces, and at least one digit-or-comma. -/
def matchMoneyShapeAt (cs : List Char) : Option Unit :=
  match cs with
  | c :: rest =>
    if c = '$' ∨ c = '€' ∨ c = '£' then
      let sp := takeRun isSpaceChar rest
      match sp.2 with
      | d :: _ => if isDigitChar d ∨ d = ',' then some () else none
      | [] => none
    else none
  | [] => none

/-- Method `_looks_like_currency`. -/
def looksLikeCurrency (value : String) : Bool :=
  (searchAux matchMoneyShapeAt value.toList).isSome

/-- Dictionary built from the fields schema: `field_name ↦ field_type`
with Python's last-key-wins semantics, defaulting to `"text"`. -/
def fieldTypeFor (schema : List (String × String)) (name : String) : String :=
  (schema.foldl (fun acc kv => if kv.1 = name then some kv.2 else acc) none).getD "text"

/-- Method `_calibrate_confidence` on one extraction entry: a null value
forces confidence `0.0`; otherwise the adjustment list is collected in
source order, summed onto the reported confidence and clamped. -/
def calibrateOne (schema : List (String × String)) (ext : RawExtraction) :
    RawExtraction :=
  let originalConf := ext.confidence.getD 0
  let fieldType := fieldTypeFor schema ext.field_name
  match ext.value with
  | none => { ext with confidence := some 0 }
  | some v =>
    let adjustments : List ℚ :=
      (if fieldType = "party" ∧ v.length < 3 then [-(2/10)] else []) ++
      (if isFalsyStr ext.citation_text then [-(1/10)] else []) ++
      (if fieldType = "date" ∧ looksLikeDate v then [5/100]
       else if fieldType = "currency" ∧ looksLikeCurrency v then [5/100]
       else [])
    let adjusted := originalConf + adjustments.sum
    { ext with confidence := some (max 0 (min (95/100) adjusted)) }

/-- Method `_calibrate_confidence` over the whole extraction list (the
source mutates each entry of the list in place). -/
def calibrateConfidence (extractions : List RawExtraction)
    (schema : List (String × String)) : List RawExtraction :=
  extractions.map (calibrateOne schema)

/-! ## Extraction service (`backend/app/services/extraction_service.py`) -/

/-! The status decision block shared verbatim by
`ExtractionService._process_extractions` (lines 124-125 and 136-143) and
`ExtractionService._extract_with_patterns` (lines 186-187 and 193-200):
read `auto_approve` and `threshold` from the queried settings row (with
defaults `False` and `0.9` when the row is absent) and produce the status,
reviewer and review-timestamp triple. -/

/-- Local `auto_approve = proj_settings.auto_approve_enabled if proj_settings else False`. -/
def autoApproveFlag (projSettings : Option ProjectSettings) : Bool :=
  match projSettings with
  | some s => s.auto_approve_enabled
  | none => false

/-- Local `threshold = proj_settings.auto_approve_threshold if proj_settings else 0.9`. -/
def autoApproveThresh (projSettings : Option ProjectSettings) : ℚ :=
  match projSettings with
  | some s => s.auto_approve_threshold
  | none => 9/10

/-- The conditional itself. -/
def autoApproveStatus (projSettings : Option ProjectSettings) (confidence : ℚ)
    (now : ℕ) : String × Option String × Option ℕ :=
  if autoApproveFlag projSettings ∧ confidence ≥ autoApproveThresh projSettings then
    ("approved", some "auto", some now)
  else ("pending", none, none)

/-- Result quadruple of `ExtractionService._pattern_extract`:
(value, citation location, citation text, confidence).  The regex table it
scans is a function of the field; the embedding abstracts the scan itself
as a parameter `pe` of the functions below, since no verified claim
depends on which candidate matched. -/
def PatternExtractFn : Type :=
  String → TemplateField → Option String × Option String × Option String × ℚ

/-- Method `ExtractionService._extract_with_patterns`: one row per
template field, in field order, normalized per the field's rule, with the
auto-approval decision applied to each row. -/
def extractWithPatterns (pe : PatternExtractFn) (document : Document)
    (fields : List TemplateField) (projectId : ℕ)
    (projSettings : Option ProjectSettings) (now : ℕ) : List ExtractedValue :=
  let content := document.content.getD ""
  fields.map (fun f =>
    let r := pe content f
    let dec := autoApproveStatus projSettings r.2.2.2 now
    { document_id := document.id
      template_field_id := f.id
      project_id := projectId
      raw_value := r.1
      normalized_value := Normalizer.normalize r.1 f.normalization_rule
      confidence := r.2.2.2
      citation := r.2.1
      citation_text := r.2.2.1
      status := dec.1
      reviewed_by := dec.2.1
      reviewed_at := dec.2.2 })

/-- Dictionary `{f.field_name: f for f in template.fields}` with Python's
last-key-wins lookup. -/
def fieldMapLookup (fields : List TemplateField) (name : String) :
    Option TemplateField :=
  fields.foldl (fun acc f => if f.field_name = name then some f else acc) none

/-- Method `ExtractionService._process_extractions` (the AI path's row
builder): entries whose `field_name` is not a template field are skipped;
every kept entry becomes a row with the auto-approval decision applied. -/
def processExtractions (extractions : List RawExtraction) (document : Document)
    (fields : List TemplateField) (projectId : ℕ)
    (projSettings : Option ProjectSettings) (now : ℕ) : List ExtractedValue :=
  extractions.filterMap (fun ext =>
    match fieldMapLookup fields ext.field_name with
    | none => none
    | some field =>
      let confidence := ext.confidence.getD 0
      let dec := autoApproveStatus projSettings confidence now
      some
        { document_id := document.id
          template_field_id := field.id
          project_id := projectId
          raw_value := ext.value
          normalized_value := Normalizer.normalize ext.value field.normalization_rule
          confidence := confidence
          citation := ext.citation
          citation_text := ext.citation_text
          status := dec.1
          reviewed_by := dec.2.1
          reviewed_at := dec.2.2 })

/-- The extraction loop's per-document guard: only linked documents in
"ready" status with truthy content are processed. -/
def processedDoc (d : Document) : Bool :=
  d.status = "ready" && d.content.getD "" ≠ ""

/-- The delete statement clearing previous extractions of one
(document, project) pair. -/
def deleteDocProjectValues (rows : List ExtractedValue) (docId projectId : ℕ) :
    List ExtractedValue :=
  rows.filter (fun r => ¬(r.document_id = docId ∧ r.project_id = projectId))

/-- Method `ExtractionService.extract_for_project`, restricted to its
effect on the `extracted_values` table: for each linked document passing
the guard, clear the document's previous values for this project and
append the back-end's fresh rows.  The back-end (`_extract_fields`,
dispatching to the AI or pattern path) is a parameter. -/
def extractForProjectValues (backend : Document → List ExtractedValue)
    (projectId : ℕ) (docs : List Document) (rows : List ExtractedValue) :
    List ExtractedValue :=
  docs.foldl
    (fun acc d =>
      if processedDoc d then deleteDocProjectValues acc d.id projectId ++ backend d
      else acc)
    rows

/-- Method `ExtractionService.update_value`, restricted to its effect on
the found row (the audit entries it writes are produced alongside): a new
raw value re-normalizes and sets status "edited", an explicit status is
applied afterwards, a reviewer stamps `reviewed_by`/`reviewed_at`. -/
def updateValueRow (fieldOpt : Option TemplateField) (ev : ExtractedValue)
    (newValue : Option String) (status : Option String)
    (reviewer : Option String) (now : ℕ) : ExtractedValue × List AuditLog :=
  let oldStatus := ev.status
  let oldValue := ev.raw_value
  let step1 := match newValue with
    | none => (ev, ([] : List AuditLog))
    | some v =>
      ({ ev with
          raw_value := some v
          normalized_value := match fieldOpt with
            | some f => Normalizer.normalize (some v) f.normalization_rule
            | none => ev.normalized_value
          status := "edited" },
       [{ entity_type := "extracted_value"
          entity_id := ev.id
          user := pyOrDefaultUser reviewer
          action := "value_edited"
          old_value := match oldValue with
            | some ov => if ov = "" then none else some (JsonVal.obj [("value", JsonVal.str ov)])
            | none => none
          new_value := if v = "" then none else some (JsonVal.obj [("value", JsonVal.str v)])
          project_id := some ev.project_id
          document_id := some ev.document_id
          created_at := now }])
  let step2 := match status with
    | none => step1
    | some st =>
      ({ step1.1 with status := st },
       step1.2 ++
         (if st ≠ oldStatus then
            [{ entity_type := "extracted_value"
               entity_id := ev.id
               user := pyOrDefaultUser reviewer
               action := "status_change"
               old_value := some (JsonVal.obj [("status", JsonVal.str oldStatus)])
               new_value := some (JsonVal.obj [("status", JsonVal.str st)])
               description := some ("Status changed from " ++ oldStatus ++ " to " ++ st)
               project_id := some ev.project_id
               document_id := some ev.document_id
               created_at := now }]
          else []))
  match reviewer with
  | none => step2
  | some r => ({ step2.1 with reviewed_by := some r, reviewed_at := some now }, step2.2)

/-! ## Audit service and the append-only state machine
(`backend/app/services/audit_service.py`) -/

/-- The database state threaded through the embedded operations. -/
structure DBState where
  projectIds : List ℕ := []
  values : List ExtractedValue := []
  settingsRows : List ProjectSettings := []
  auditLogs : List AuditLog := []

/-- Method `AuditService.log`, the audit service's single write: insert a
new row at the end of the log table. -/
def auditServiceLog (s : DBState) (entry : AuditLog) : DBState :=
  { s with auditLogs := s.auditLogs ++ [entry] }

/-- Wrapper `AuditService.log_value_change`. -/
def auditLogValueChange (s : DBState) (valueId : ℕ) (action user : String)
    (oldValue newValue : Option String) (projectId documentId : Option ℕ)
    (now : ℕ) : DBState :=
  auditServiceLog s
    { entity_type := "extracted_value"
      entity_id := valueId
      user := user
      action := action
      old_value := match oldValue with
        | some ov => if ov = "" then none else some (JsonVal.obj [("value", JsonVal.str ov)])
        | none => none
      new_value := match newValue with
        | some nv => if nv = "" then none else some (JsonVal.obj [("value", JsonVal.str nv)])
        | none => none
      project_id := projectId
      document_id := documentId
      created_at := now }

/-- Wrapper `AuditService.log_status_change`. -/
def auditLogStatusChange (s : DBState) (valueId : ℕ) (oldStatus newStatus user : String)
    (projectId documentId : Option ℕ) (now : ℕ) : DBState :=
  auditServiceLog s
    { entity_type := "extracted_value"
      entity_id := valueId
      user := user
      action := "status_change"
      old_value := some (JsonVal.obj [("status", JsonVal.str oldStatus)])
      new_value := some (JsonVal.obj [("status", JsonVal.str newStatus)])
      description := some ("Status changed from " ++ oldStatus ++ " to " ++ newStatus)
      project_id := projectId
      document_id := documentId
      created_at := now }

/-- Wrapper `AuditService.log_comment`. -/
def auditLogComment (s : DBState) (valueId commentId : ℕ) (action user : String)
    (content : Option String) (projectId : Option ℕ) (now : ℕ) : DBState :=
  auditServiceLog s
    { entity_type := "comment"
      entity_id := commentId
      user := user
      action := action
      new_value := match content with
        | some c =>
          if c = "" then none
          else some (JsonVal.obj [("content", JsonVal.str c), ("value_id", JsonVal.num valueId)])
        | none => none
      project_id := projectId
      created_at := now }

/-- Query of the settings row for a project (`.filter(...).first()`). -/
def settingsRowFor (s : DBState) (projectId : ℕ) : Option ProjectSettings :=
  s.settingsRows.find? (fun r => r.project_id = projectId)

/-- The audit entry `_process_extractions`/`_extract_with_patterns` writes
for one created value. -/
def extractionAuditEntry (ev : ExtractedValue) (projectId : ℕ) (now : ℕ) :
    AuditLog :=
  { entity_type := "extracted_value"
    entity_id := ev.id
    user := "system"
    action := if ev.status = "pending" then "extracted" else "auto_approved"
    new_value := some (JsonVal.obj
      [("value", match ev.raw_value with
        | some v => JsonVal.str v
        | none => JsonVal.null),
       ("confidence", JsonVal.num ev.confidence)])
    project_id := some projectId
    document_id := some ev.document_id
    created_at := now }

/-- Operation `extract_for_project` as a whole-state transition on the
pattern path: replace the values of processed documents and append one
audit entry per created row. -/
def extractForProjectState (pe : PatternExtractFn) (fields : List TemplateField)
    (projectId : ℕ) (docs : List Document) (s : DBState) (now : ℕ) : DBState :=
  let backend := fun d =>
    extractWithPatterns pe d fields projectId (settingsRowFor s projectId) now
  let inserted := (docs.filter processedDoc).map backend
  { s with
    values := extractForProjectValues backend projectId docs s.values
    auditLogs := s.auditLogs ++
      (inserted.flatten.map (fun ev => extractionAuditEntry ev projectId now)) }

/-- Operation `update_value` as a state transition; a missing row raises
`NotFoundError`. -/
def updateValueState (s : DBState) (fieldOf : ℕ → Option TemplateField)
    (valueId : ℕ) (newValue status reviewer : Option String) (now : ℕ) :
    Except String DBState :=
  match s.values.find? (fun r => r.id = valueId) with
  | none => .error "ExtractedValue not found"
  | some ev =>
    let upd := updateValueRow (fieldOf ev.template_field_id) ev newValue status reviewer now
    .ok { s with
      values := s.values.map (fun r => if r.id = valueId then upd.1 else r)
      auditLogs := s.auditLogs ++ upd.2 }

/-- One step of `bulk_approve`/`bulk_reject`: a found row gets the fixed
status, the reviewer stamp and a status-change audit entry; a missing id
is skipped. -/
def bulkStatusStep (newStatus reviewer : String) (now : ℕ)
    (acc : DBState × List ℕ) (valueId : ℕ) : DBState × List ℕ :=
  let s := acc.1
  match s.values.find? (fun r => r.id = valueId) with
  | none => acc
  | some ev =>
    let s1 := { s with values := s.values.map (fun r =>
      if r.id = valueId then
        { r with status := newStatus, reviewed_by := some reviewer, reviewed_at := some now }
      else r) }
    (auditLogStatusChange s1 valueId ev.status newStatus reviewer
       (some ev.project_id) (some ev.document_id) now,
     acc.2 ++ [valueId])

/-- Operations `bulk_approve` / `bulk_reject`, returning the updated ids. -/
def bulkStatusState (newStatus : String) (s : DBState) (valueIds : List ℕ)
    (reviewer : String) (now : ℕ) : DBState × List ℕ :=
  valueIds.foldl (bulkStatusStep newStatus reviewer now) (s, [])

/-- Method `SettingsService.get_or_create_settings` as a state transition:
an existing row is returned as is, otherwise a default row is inserted
(after checking the project exists). -/
def getOrCreateSettingsState (s : DBState) (projectId : ℕ) :
    Except String DBState :=
  match settingsRowFor s projectId with
  | some _ => .ok s
  | none =>
    if s.projectIds.contains projectId then
      .ok { s with settingsRows := s.settingsRows ++ [{ project_id := projectId }] }
    else .error "Project not found"

/-- The embedded operation space: every state-touching service operation
of the embedding, plus the audit service's own reads (which return data
without transition). -/
inductive Op : Type where
  | auditLog (entry : AuditLog) : Op
  | auditValueChange (valueId : ℕ) (action user : String)
      (oldValue newValue : Option String) (projectId documentId : Option ℕ)
      (now : ℕ) : Op
  | auditStatusChange (valueId : ℕ) (oldStatus newStatus user : String)
      (projectId documentId : Option ℕ) (now : ℕ) : Op
  | auditComment (valueId commentId : ℕ) (action user : String)
      (content : Option String) (projectId : Option ℕ) (now : ℕ) : Op
  | auditReadProject (projectId limit offset : ℕ) : Op
  | auditReadValue (valueId limit : ℕ) : Op
  | auditReadRecent (limit : ℕ) : Op
  | extract (pe : PatternExtractFn) (fields : List TemplateField)
      (projectId : ℕ) (docs : List Document) (now : ℕ) : Op
  | updateValue (fieldOf : ℕ → Option TemplateField) (valueId : ℕ)
      (newValue status reviewer : Option String) (now : ℕ) : Op
  | bulkApprove (valueIds : List ℕ) (reviewer : String) (now : ℕ) : Op
  | bulkReject (valueIds : List ℕ) (reviewer : String) (now : ℕ) : Op
  | getOrCreateSettings (projectId : ℕ) : Op
  | updateSettings (projectId : ℕ) (enabled : Option Bool) (threshold : Option ℚ)
      (notifyComplete notifyLow : Option Bool) (lowThreshold : Option ℚ) : Op

/-- Method `SettingsService.update_settings` applied to one row. -/
def applySettingsPatch (row : ProjectSettings) (enabled : Option Bool)
    (threshold : Option ℚ) (notifyComplete notifyLow : Option Bool)
    (lowThreshold : Option ℚ) : ProjectSettings :=
  { row with
    auto_approve_enabled := enabled.getD row.auto_approve_enabled
    auto_approve_threshold := threshold.getD row.auto_approve_threshold
    notify_on_extraction_complete := notifyComplete.getD row.notify_on_extraction_complete
    notify_on_low_confidence := notifyLow.getD row.notify_on_low_confidence
    low_confidence_threshold := lowThreshold.getD row.low_confidence_threshold }

/-- State transition of each embedded operation (reads and raised errors
leave the state unchanged, as the request's unit of work rolls back). -/
def applyOp (op : Op) (s : DBState) : DBState :=
  match op with
  | .auditLog entry => auditServiceLog s entry
  | .auditValueChange vid a u ov nv pid did now =>
    auditLogValueChange s vid a u ov nv pid did now
  | .auditStatusChange vid os ns u pid did now =>
    auditLogStatusChange s vid os ns u pid did now
  | .auditComment vid cid a u c pid now => auditLogComment s vid cid a u c pid now
  | .auditReadProject _ _ _ => s
  | .auditReadValue _ _ => s
  | .auditReadRecent _ => s
  | .extract pe fields pid docs now => extractForProjectState pe fields pid docs s now
  | .updateValue fieldOf vid nv st rv now =>
    match updateValueState s fieldOf vid nv st rv now with
    | .ok s2 => s2
    | .error _ => s
  | .bulkApprove ids reviewer now => (bulkStatusState "approved" s ids reviewer now).1
  | .bulkReject ids reviewer now => (bulkStatusState "rejected" s ids reviewer now).1
  | .getOrCreateSettings pid =>
    match getOrCreateSettingsState s pid with
    | .ok s2 => s2
    | .error _ => s
  | .updateSettings pid en th nc nl lt =>
    match getOrCreateSettingsState s pid with
    | .ok s2 =>
      { s2 with settingsRows := s2.settingsRows.map (fun r =>
          if r.project_id = pid then applySettingsPatch r en th nc nl lt else r) }
    | .error _ => s

/-! ## Evaluation service (`backend/app/services/evaluation_service.py`) -/

/-- Rounding of Python's `round(x, 4)`, idealized over `ℚ` with ties to
even. -/
def round4 (q : ℚ) : ℚ := (roundHalfEven (q * 10000) : ℚ) / 10000

/-- The summary arithmetic of `EvaluationService.evaluate_project`
(lines 106-121): precision, recall and F1 from the classification counts,
each guard defaulting to the initialized `0.0`. -/
def evaluationAggregates (correct incorrect total : ℕ) : ℚ × ℚ × ℚ :=
  let extractedCount := correct + incorrect
  let precision := if extractedCount > 0 then round4 ((correct : ℚ) / extractedCount) else 0
  let recallQ := if total > 0 then round4 ((correct : ℚ) / total) else 0
  let f1 := if precision + recallQ > 0 then
    round4 (2 * (precision * recallQ) / (precision + recallQ)) else 0
  (precision, recallQ, f1)

/-! ## Auxiliary definitions used by the statements below -/

/-- No start position of the input matches any of the four iso-date
patterns (the "unparsable" case of `_normalize_date`). -/
def isoDateMatchless (s : String) : Bool :=
  (searchAux (matchTokDayYearAt isWordChar) s.toList).isNone &&
  (searchAux matchDayMonthYearAt s.toList).isNone &&
  (searchAux matchNumericMDYAt s.toList).isNone &&
  (searchAux matchNumericYMDAt s.toList).isNone

/-- Ids of the documents the extraction loop processes. -/
def processedIds (docs : List Document) : List ℕ :=
  (docs.filter processedDoc).map Document.id

/-- Rows surviving every per-document delete of one run: those not keyed
by the project and one of the given document ids. -/
def purgeValues (rows : List ExtractedValue) (projectId : ℕ) (ids : List ℕ) :
    List ExtractedValue :=
  rows.filter (fun r => ¬(r.project_id = projectId ∧ r.document_id ∈ ids))

/-- Concatenation of the back-end outputs over a document list, in
processing order. -/
def concatBackend (backend : Document → List ExtractedValue) :
    List Document → List ExtractedValue
  | [] => []
  | d :: ds => backend d ++ concatBackend backend ds

/-- The regex `[A-Z]+` as a tree, the counterexample pattern for the
validation rule check. -/
def upperPlusRE : RE := RE.plus (RE.cls (fun c => 'A' ≤ c && c ≤ 'Z'))

/-- A party field carrying the `[A-Z]+` pattern rule. -/
def fieldC6 : FieldWithRules :=
  { field := { id := 1, field_name := "party_a", field_label := "Party A",
               field_type := "party" }
    validation_rules := some { pattern := some upperPlusRE } }

/-- An extracted value of which only the proper prefix "ACME" matches the
pattern. -/
def valueC6 : ExtractedValue :=
  { id := 1, document_id := 1, template_field_id := 1, project_id := 1,
    raw_value := some "ACMEcorp" }

/-- A settings row with auto-approval enabled at the 0.9 threshold. -/
def enabledSettings09 : ProjectSettings :=
  { project_id := 1, auto_approve_enabled := true, auto_approve_threshold := 9/10 }

/-- Schema of one currency field, a calibration witness input. -/
def sampleSchemaC7 : List (String × String) := [("amount", "currency")]

/-- A model answer for the currency field, a calibration witness input. -/
def sampleExtC7 : RawExtraction :=
  { field_name := "amount", value := some "$1,200.00",
    citation_text := some "shall pay $1,200.00 monthly", confidence := some (9/10) }

/-- A pattern scan stub used only to instantiate universally quantified
extraction statements at a concrete input. -/
def samplePE : PatternExtractFn :=
  fun _ _ => (some "March 1, 2023", some "Section 1", some "Effective Date: March 1, 2023", 85/100)

/-- A one-field template used by the concrete instantiations. -/
def sampleFields : List TemplateField :=
  [{ id := 1, field_name := "effective_date", field_label := "Effective Date",
     field_type := "date" }]

/-- A ready document used by the concrete instantiations. -/
def sampleDoc : Document :=
  { id := 1, status := "ready", content := some "Effective Date: March 1, 2023" }

/-- The row the pattern path produces from `samplePE`/`sampleDoc`/
`sampleFields` under `enabledSettings09` at time 3 (confidence 0.85 is
below the 0.9 threshold, hence pending). -/
def sampleEvC1 : ExtractedValue :=
  { id := 0, document_id := 1, template_field_id := 1, project_id := 1,
    raw_value := some "March 1, 2023", normalized_value := some "March 1, 2023",
    confidence := 85/100, citation := some "Section 1",
    citation_text := some "Effective Date: March 1, 2023",
    status := "pending", reviewed_by := none, reviewed_at := none }

/-- A one-row state used to instantiate the update-value statement. -/
def sampleStateC10 : DBState :=
  { values := [{ id := 5, document_id := 2, template_field_id := 3, project_id := 4,
                 raw_value := some "old text", status := "pending" }] }

/-- The row of `sampleStateC10`. -/
def sampleRowC10 : ExtractedValue :=
  { id := 5, document_id := 2, template_field_id := 3, project_id := 4,
    raw_value := some "old text", status := "pending" }

/-! ## Theorems -/

/-- Helper, an unsupported rule name resolves to no transform. -/
theorem normalizerFor_eq_none (r : String) (h : r ∉ supportedRules) :
    normalizerFor r = none := by
  simp only [supportedRules, List.mem_cons, List.not_mem_nil, or_false, not_or] at h
  obtain ⟨h1, h2, h3, h4, h5, h6, h7, h8, h9⟩ := h
  simp [normalizerFor, h1, h2, h3, h4, h5, h6, h7, h8, h9]

/-- C4: `Normalizer.normalize` is the identity whenever no transform
applies — the value is absent, the rule is absent or empty, or the
(lower-cased) rule name is not one of the nine supported rules. -/
theorem C4_normalize_identity :
    (∀ r : Option String, Normalizer.normalize none r = none) ∧
    (∀ v : Option String, Normalizer.normalize v none = v) ∧
    (∀ v : Option String, Normalizer.normalize v (some "") = v) ∧
    (∀ (v : Option String) (name : String), strLower name ∉ supportedRules →
      Normalizer.normalize v (some name) = v) := by
  refine ⟨fun _ => rfl, fun v => ?_, fun v => ?_, fun v name h => ?_⟩
  · cases v <;> rfl
  · cases v <;> rfl
  · cases v with
    | none => rfl
    | some s =>
      simp only [Normalizer.normalize]
      by_cases he : name = ""
      · simp [he]
      · simp [he, normalizerFor_eq_none _ h]

/-- Witness for C4 at the unknown rule name "unknown". -/
theorem C4_normalize_identity_witness :
    strLower "unknown" ∉ supportedRules ∧
    Normalizer.normalize (some "ACME Corp") (some "unknown") = some "ACME Corp" :=
  ⟨by decide, C4_normalize_identity.2.2.2 (some "ACME Corp") "unknown" (by decide)⟩

/-- C5 counterexample: a matching string whose month-name token is not in
the month table does not pass through unchanged — the absent month
defaults to "01". -/
theorem C5_unknown_month_counterexample :
    Normalizer.normalize (some "Foo 15, 2024") (some "iso_date") = some "2024-01-15" ∧
    some "2024-01-15" ≠ some "Foo 15, 2024" := by
  exact ⟨by decide, by decide⟩

/-- C5 (amended): iso-date normalization tries the four patterns in order
(month-name day-year, day month-name year, numeric m/d/y, numeric y/m/d),
emitting zero-padded `YYYY-MM-DD`; an input matched by no pattern is
returned unchanged, while a matching input whose month-name token is not
in the table yields the default month "01". -/
theorem C5_iso_date_amended :
    (∀ s : String, isoDateMatchless s = true →
      Normalizer.normalize (some s) (some "iso_date") = some s) ∧
    Normalizer.normalize (some "January 15, 2024") (some "iso_date") = some "2024-01-15" ∧
    Normalizer.normalize (some "15 March 2023") (some "iso_date") = some "2023-03-15" ∧
    Normalizer.normalize (some "01/15/2024") (some "iso_date") = some "2024-01-15" ∧
    Normalizer.normalize (some "2024/1/5") (some "iso_date") = some "2024-01-05" ∧
    Normalizer.normalize (some "Mar 1, 2024") (some "iso_date") = some "2024-03-01" := by
  refine ⟨fun s h => ?_, by decide, by decide, by decide, by decide, by decide⟩
  have hdisp : Normalizer.normalize (some s) (some "iso_date") = some (normalizeDate s) := rfl
  rw [hdisp]
  simp only [isoDateMatchless, Bool.and_eq_true, Option.isNone_iff_eq_none] at h
  obtain ⟨⟨⟨h1, h2⟩, h3⟩, h4⟩ := h
  have e : s.toList = s.data := rfl
  rw [e] at h1 h2 h3 h4
  simp [normalizeDate, h1, h2, h3, h4]

/-- Witness for C5's amended pass-through clause at a patternless input. -/
theorem C5_iso_date_amended_witness :
    isoDateMatchless "no numeric tokens at all" = true ∧
    Normalizer.normalize (some "no numeric tokens at all") (some "iso_date") =
      some "no numeric tokens at all" :=
  ⟨by decide, C5_iso_date_amended.1 "no numeric tokens at all" (by decide)⟩

/-- C6 (the claim is right, the code is wrong): the pattern rule is
checked with `re.match`, which accepts a match of a proper prefix, so a
value of which only the proper prefix "ACME" matches `[A-Z]+` produces no
"pattern" error even though the value does not fully match — contradicting
the documented full-match semantics (and the test suite's own
`re.fullmatch` formulation of the check). -/
theorem C6_pattern_prefix_divergence :
    reMatch upperPlusRE "ACMEcorp" = true ∧
    reFullmatch upperPlusRE "ACMEcorp" = false ∧
    validateValue valueC6 (some fieldC6) = [] := by
  exact ⟨by decide, by decide, by decide⟩

/-- C7: for a non-null value the calibrated confidence is the reported
confidence plus the sum of the applicable adjustments (−0.2 short party
value, −0.1 missing citation text, +0.05 recognized date or money shape),
clamped to [0, 0.95]; every calibrated confidence is at most 0.95, hence
below 1. -/
theorem C7_calibration_clamped :
    (∀ (exts : List RawExtraction) (schema : List (String × String)),
      calibrateConfidence exts schema = exts.map (calibrateOne schema)) ∧
    (∀ (schema : List (String × String)) (ext : RawExtraction) (v : String),
      ext.value = some v →
      (calibrateOne schema ext).confidence = some (max 0 (min (95/100)
        (ext.confidence.getD 0 +
          ((if fieldTypeFor schema ext.field_name = "party" ∧ v.length < 3 then -(2/10) else 0) +
           (if isFalsyStr ext.citation_text = true then -(1/10) else 0) +
           (if (fieldTypeFor schema ext.field_name = "date" ∧ looksLikeDate v = true) ∨
               (fieldTypeFor schema ext.field_name = "currency" ∧ looksLikeCurrency v = true)
            then 5/100 else 0)))))) ∧
    (∀ (schema : List (String × String)) (ext : RawExtraction) (q : ℚ),
      (calibrateOne schema ext).confidence = some q → q ≤ 95/100 ∧ q < 1) := by
  refine ⟨fun _ _ => rfl, fun schema ext v hv => ?_, fun schema ext q hq => ?_⟩
  · have hsum : ∀ (P1 P2 P3a P3b : Prop) (_ : Decidable P1) (_ : Decidable P2)
        (_ : Decidable P3a) (_ : Decidable P3b),
        ((if P1 then [-(2/10 : ℚ)] else []) ++ (if P2 then [-(1/10 : ℚ)] else []) ++
          (if P3a then [(5/100 : ℚ)] else if P3b then [(5/100 : ℚ)] else [])).sum =
        (if P1 then -(2/10 : ℚ) else 0) + (if P2 then -(1/10 : ℚ) else 0) +
          (if P3a ∨ P3b then (5/100 : ℚ) else 0) := by
      intro P1 P2 P3a P3b d1 d2 d3 d4
      by_cases h1 : P1 <;> by_cases h2 : P2 <;> by_cases h3 : P3a <;> by_cases h4 : P3b <;>
        simp [h1, h2, h3, h4] <;> ring
    rw [calibrateOne, hv]
    dsimp only
    rw [hsum]
  · cases hval : ext.value with
    | none =>
      rw [calibrateOne, hval] at hq
      simp only [Option.some.injEq] at hq
      subst hq
      norm_num
    | some v =>
      rw [calibrateOne, hval] at hq
      simp only [Option.some.injEq] at hq
      subst hq
      constructor
      · exact max_le (by norm_num) (min_le_left _ _)
      · exact lt_of_le_of_lt (max_le (by norm_num) (min_le_left _ _)) (by norm_num)

/-- Witness for C7 on a currency extraction gaining the +0.05 shape bonus
and landing exactly on the 0.95 cap. -/
theorem C7_calibration_clamped_witness :
    sampleExtC7.value = some "$1,200.00" ∧
    (calibrateOne sampleSchemaC7 sampleExtC7).confidence = some (95/100) := by
  refine ⟨rfl, ?_⟩
  have h := C7_calibration_clamped.2.1 sampleSchemaC7 sampleExtC7 "$1,200.00" rfl
  rw [h]
  have c1 : ¬(fieldTypeFor sampleSchemaC7 sampleExtC7.field_name = "party" ∧
      ("$1,200.00" : String).length < 3) := by decide
  have c2 : ¬(isFalsyStr sampleExtC7.citation_text = true) := by decide
  have c3 : (fieldTypeFor sampleSchemaC7 sampleExtC7.field_name = "date" ∧
        looksLikeDate "$1,200.00" = true) ∨
      (fieldTypeFor sampleSchemaC7 sampleExtC7.field_name = "currency" ∧
        looksLikeCurrency "$1,200.00" = true) := by decide
  rw [if_neg c1, if_neg c2, if_pos c3]
  have hconf : sampleExtC7.confidence.getD 0 = 9/10 := rfl
  rw [hconf]
  norm_num

/-- C9: a null-valued extraction is forced to confidence exactly 0 with
no adjustment applied, and a zero confidence can never pass a positive
auto-approval threshold. -/
theorem C9_null_value_zero_confidence :
    ∀ (schema : List (String × String)) (ext : RawExtraction),
      ext.value = none →
      calibrateOne schema ext = { ext with confidence := some 0 } ∧
      (∀ row : ProjectSettings, 0 < row.auto_approve_threshold →
        shouldAutoApprove (some row) ((calibrateOne schema ext).confidence.getD 0) = false) := by
  intro schema ext h
  have h1 : calibrateOne schema ext = { ext with confidence := some 0 } := by
    rw [calibrateOne, h]
  refine ⟨h1, fun row hrow => ?_⟩
  rw [h1]
  simp only [shouldAutoApprove]
  by_cases he : row.auto_approve_enabled
  · have hlt : ¬ ((0 : ℚ) ≥ row.auto_approve_threshold) := not_le.mpr hrow
    simp [he, hlt]
  · simp [he]

/-- Witness for C9 on a null extraction reported at confidence 0.99
against the enabled 0.9-threshold settings. -/
theorem C9_null_value_zero_confidence_witness :
    ({ field_name := "x", value := none, confidence := some (99/100) } : RawExtraction).value = none ∧
    0 < enabledSettings09.auto_approve_threshold ∧
    shouldAutoApprove (some enabledSettings09)
      ((calibrateOne [] { field_name := "x", value := none, confidence := some (99/100) }).confidence.getD 0) = false := by
  refine ⟨rfl, by norm_num [enabledSettings09], ?_⟩
  exact (C9_null_value_zero_confidence [] _ rfl).2 enabledSettings09
    (by norm_num [enabledSettings09])

/-- C8: precision is correct/(correct+incorrect) under a positive
denominator, recall is correct/total under a positive total, F1 is
2PR/(P+R) under a positive P+R, each rounded to 4 decimals and 0.0 when
its guard fails; the instance correct=3, incorrect=1, total=5 yields
(0.75, 0.6, 0.6667). -/
theorem C8_evaluation_metrics :
    (∀ correct incorrect total : ℕ,
      (0 < correct + incorrect →
        (evaluationAggregates correct incorrect total).1 =
          round4 ((correct : ℚ) / ((correct + incorrect : ℕ) : ℚ))) ∧
      (correct + incorrect = 0 → (evaluationAggregates correct incorrect total).1 = 0) ∧
      (0 < total →
        (evaluationAggregates correct incorrect total).2.1 =
          round4 ((correct : ℚ) / ((total : ℕ) : ℚ))) ∧
      (total = 0 → (evaluationAggregates correct incorrect total).2.1 = 0) ∧
      (0 < (evaluationAggregates correct incorrect total).1 +
            (evaluationAggregates correct incorrect total).2.1 →
        (evaluationAggregates correct incorrect total).2.2 =
          round4 (2 * ((evaluationAggregates correct incorrect total).1 *
              (evaluationAggregates correct incorrect total).2.1) /
            ((evaluationAggregates correct incorrect total).1 +
              (evaluationAggregates correct incorrect total).2.1))) ∧
      (¬ 0 < (evaluationAggregates correct incorrect total).1 +
            (evaluationAggregates correct incorrect total).2.1 →
        (evaluationAggregates correct incorrect total).2.2 = 0)) ∧
    evaluationAggregates 3 1 5 = (3/4, 3/5, 6667/10000) := by
  constructor
  · intro c i t
    have e1 : (evaluationAggregates c i t).1 =
        (if 0 < c + i then round4 ((c : ℚ) / ((c + i : ℕ) : ℚ)) else 0) := rfl
    have e2 : (evaluationAggregates c i t).2.1 =
        (if 0 < t then round4 ((c : ℚ) / ((t : ℕ) : ℚ)) else 0) := rfl
    have e3 : (evaluationAggregates c i t).2.2 =
        (if 0 < (evaluationAggregates c i t).1 + (evaluationAggregates c i t).2.1 then
          round4 (2 * ((evaluationAggregates c i t).1 * (evaluationAggregates c i t).2.1) /
            ((evaluationAggregates c i t).1 + (evaluationAggregates c i t).2.1))
        else 0) := rfl
    refine ⟨fun h => ?_, fun h => ?_, fun h => ?_, fun h => ?_, fun h => ?_, fun h => ?_⟩
    · rw [e1, if_pos h]
    · rw [e1, if_neg (by omega)]
    · rw [e2, if_pos h]
    · rw [e2, if_neg (by omega)]
    · rw [e3, if_pos h]
    · rw [e3, if_neg h]
  · norm_num [evaluationAggregates, round4, roundHalfEven, Prod.ext_iff]

/-- Witness for C8 discharging the positive-denominator guards at the
concrete instance. -/
theorem C8_evaluation_metrics_witness :
    0 < 3 + 1 ∧ (evaluationAggregates 3 1 5).1 = round4 ((3 : ℚ) / ((3 + 1 : ℕ) : ℚ)) :=
  ⟨by norm_num, (C8_evaluation_metrics.1 3 1 5).1 (by norm_num)⟩

/-- C10: an explicit non-null status supplied together with a new raw
value is applied after the value edit and overrides the "edited" status
the edit sets; without an explicit status the edit leaves "edited".  At
the state level the found row is replaced by the updated row. -/
theorem C10_update_value_status_override :
    (∀ (fieldOpt : Option TemplateField) (ev : ExtractedValue) (v st : String)
       (reviewer : Option String) (now : ℕ),
      (updateValueRow fieldOpt ev (some v) (some st) reviewer now).1.status = st) ∧
    (∀ (fieldOpt : Option TemplateField) (ev : ExtractedValue) (v : String)
       (reviewer : Option String) (now : ℕ),
      (updateValueRow fieldOpt ev (some v) none reviewer now).1.status = "edited") ∧
    (∀ (s : DBState) (fieldOf : ℕ → Option TemplateField) (valueId : ℕ)
       (nv st rv : Option String) (now : ℕ) (ev : ExtractedValue),
      s.values.find? (fun r => r.id = valueId) = some ev →
      updateValueState s fieldOf valueId nv st rv now = .ok
        { s with
          values := s.values.map (fun r =>
            if r.id = valueId then
              (updateValueRow (fieldOf ev.template_field_id) ev nv st rv now).1
            else r)
          auditLogs := s.auditLogs ++
            (updateValueRow (fieldOf ev.template_field_id) ev nv st rv now).2 }) := by
  refine ⟨fun fieldOpt ev v st reviewer now => ?_,
          fun fieldOpt ev v reviewer now => ?_,
          fun s fieldOf valueId nv st rv now ev hfind => ?_⟩
  · cases reviewer <;> simp [updateValueRow]
  · cases reviewer <;> simp [updateValueRow]
  · simp [updateValueState, hfind]

/-- Witness for C10 at a concrete one-row state: the explicit "approved"
status wins over the "edited" set by the value edit. -/
theorem C10_update_value_status_override_witness :
    sampleStateC10.values.find? (fun r => r.id = 5) = some sampleRowC10 ∧
    updateValueState sampleStateC10 (fun _ => none) 5 (some "new text") (some "approved")
        (some "alice") 7 = .ok
      { sampleStateC10 with
        values := sampleStateC10.values.map (fun r =>
          if r.id = 5 then
            (updateValueRow ((fun _ => none) sampleRowC10.template_field_id) sampleRowC10
              (some "new text") (some "approved") (some "alice") 7).1
          else r)
        auditLogs := sampleStateC10.auditLogs ++
          (updateValueRow ((fun _ => none) sampleRowC10.template_field_id) sampleRowC10
            (some "new text") (some "approved") (some "alice") 7).2 } ∧
    (updateValueRow (none) sampleRowC10 (some "new text") (some "approved") (some "alice") 7).1.status
      = "approved" := by
  refine ⟨rfl, ?_, ?_⟩
  · exact C10_update_value_status_override.2.2 sampleStateC10 (fun _ => none) 5
      (some "new text") (some "approved") (some "alice") 7 sampleRowC10 rfl
  · exact C10_update_value_status_override.1 none sampleRowC10 "new text" "approved"
      (some "alice") 7

/-- C1: a freshly created extraction row is stored approved/"auto"/now
exactly when a settings row exists with auto-approval enabled and the
confidence meets its threshold, and pending with no reviewer stamp
otherwise; this is the decision both the pattern path and the AI path
apply to every created row, it coincides with
`SettingsService.should_auto_approve`, and at an enabled 0.9 threshold a
0.92 confidence approves while a 0.85 confidence stays pending. -/
theorem C1_auto_approval :
    (∀ (ps : Option ProjectSettings) (conf : ℚ) (now : ℕ),
      autoApproveStatus ps conf now =
        (if shouldAutoApprove ps conf then ("approved", some "auto", some now)
         else ("pending", none, none))) ∧
    (∀ (ps : Option ProjectSettings) (conf : ℚ),
      shouldAutoApprove ps conf = true ↔
        ∃ s, ps = some s ∧ s.auto_approve_enabled = true ∧ s.auto_approve_threshold ≤ conf) ∧
    (∀ (pe : PatternExtractFn) (doc : Document) (fields : List TemplateField)
       (pid : ℕ) (ps : Option ProjectSettings) (now : ℕ) (ev : ExtractedValue),
      ev ∈ extractWithPatterns pe doc fields pid ps now →
      (ev.status, ev.reviewed_by, ev.reviewed_at) = autoApproveStatus ps ev.confidence now) ∧
    (∀ (exts : List RawExtraction) (doc : Document) (fields : List TemplateField)
       (pid : ℕ) (ps : Option ProjectSettings) (now : ℕ) (ev : ExtractedValue),
      ev ∈ processExtractions exts doc fields pid ps now →
      (ev.status, ev.reviewed_by, ev.reviewed_at) = autoApproveStatus ps ev.confidence now) ∧
    (∀ now : ℕ,
      autoApproveStatus (some enabledSettings09) (92/100) now = ("approved", some "auto", some now)) ∧
    (∀ now : ℕ,
      autoApproveStatus (some enabledSettings09) (85/100) now = ("pending", none, none)) := by
  refine ⟨fun ps conf now => ?_, fun ps conf => ?_,
          fun pe doc fields pid ps now ev hmem => ?_,
          fun exts doc fields pid ps now ev hmem => ?_,
          fun now => ?_, fun now => ?_⟩
  · cases ps with
    | none => simp [autoApproveStatus, autoApproveFlag, shouldAutoApprove]
    | some s =>
      by_cases he : s.auto_approve_enabled <;>
        by_cases hc : s.auto_approve_threshold ≤ conf <;>
          simp [autoApproveStatus, autoApproveFlag, autoApproveThresh,
            shouldAutoApprove, he, hc]
  · cases ps with
    | none => simp [shouldAutoApprove]
    | some s =>
      by_cases he : s.auto_approve_enabled <;>
        by_cases hc : s.auto_approve_threshold ≤ conf <;>
          simp [shouldAutoApprove, he, hc]
  · obtain ⟨fld, _, rfl⟩ := List.mem_map.mp hmem
    rfl
  · obtain ⟨ext, _, hsome⟩ := List.mem_filterMap.mp hmem
    cases hlk : fieldMapLookup fields ext.field_name with
    | none => rw [hlk] at hsome; exact absurd hsome (by simp)
    | some field =>
      rw [hlk] at hsome
      simp only [Option.some.injEq] at hsome
      subst hsome
      rfl
  · simp [autoApproveStatus, autoApproveFlag, autoApproveThresh, enabledSettings09]
    norm_num
  · simp [autoApproveStatus, autoApproveFlag, autoApproveThresh, enabledSettings09]
    norm_num

/-- Witness for C1 on the concrete pattern extraction of `sampleDoc`:
the produced row carries the auto-approval decision. -/
theorem C1_auto_approval_witness :
    sampleEvC1 ∈ extractWithPatterns samplePE sampleDoc sampleFields 1 (some enabledSettings09) 3 ∧
    (sampleEvC1.status, sampleEvC1.reviewed_by, sampleEvC1.reviewed_at) =
      autoApproveStatus (some enabledSettings09) sampleEvC1.confidence 3 := by
  have hlist : extractWithPatterns samplePE sampleDoc sampleFields 1 (some enabledSettings09) 3 =
      [sampleEvC1] := by
    rw [extractWithPatterns]
    norm_num [samplePE, sampleFields, sampleDoc, sampleEvC1, autoApproveStatus,
      autoApproveFlag, autoApproveThresh, enabledSettings09, Normalizer.normalize]
  refine ⟨?_, ?_⟩
  · rw [hlist]; exact List.mem_singleton.mpr rfl
  · exact C1_auto_approval.2.2.1 samplePE sampleDoc sampleFields 1 (some enabledSettings09) 3
      sampleEvC1 (by rw [hlist]; exact List.mem_singleton.mpr rfl)

/-- Helper, one bulk-status step only appends to the audit log. -/
theorem bulkStatusStep_extends (newStatus reviewer : String) (now : ℕ)
    (acc : DBState × List ℕ) (valueId : ℕ) :
    acc.1.auditLogs <+: ((bulkStatusStep newStatus reviewer now acc valueId).1).auditLogs := by
  rw [bulkStatusStep]
  cases hf : acc.1.values.find? (fun r => r.id = valueId) with
  | none => exact ⟨[], List.append_nil _⟩
  | some ev => exact ⟨_, rfl⟩

/-- Helper, the bulk-status fold only appends to the audit log. -/
theorem bulkStatusFold_extends (newStatus reviewer : String) (now : ℕ) :
    ∀ (ids : List ℕ) (acc : DBState × List ℕ),
      acc.1.auditLogs <+:
        ((ids.foldl (bulkStatusStep newStatus reviewer now) acc).1).auditLogs := by
  intro ids
  induction ids with
  | nil => intro acc; exact ⟨[], List.append_nil _⟩
  | cons valueId rest ih =>
    intro acc
    rw [List.foldl_cons]
    exact (bulkStatusStep_extends newStatus reviewer now acc valueId).trans (ih _)

/-- Helper, the settings get-or-create transition never touches the audit
log. -/
theorem getOrCreateSettings_auditLogs (s : DBState) (projectId : ℕ) (s2 : DBState)
    (h : getOrCreateSettingsState s projectId = .ok s2) : s2.auditLogs = s.auditLogs := by
  rw [getOrCreateSettingsState] at h
  cases hf : settingsRowFor s projectId with
  | some r =>
    rw [hf] at h
    simp only [Except.ok.injEq] at h
    rw [← h]
  | none =>
    rw [hf] at h
    by_cases hc : s.projectIds.contains projectId
    · rw [if_pos hc] at h
      simp only [Except.ok.injEq] at h
      rw [← h]
    · rw [if_neg hc] at h
      exact absurd h (by simp)

/-- C3: over the embedded operation space — the audit service's single
write and its three convenience wrappers, its reads, an extraction run,
single and bulk review updates, and the settings transitions — every
operation extends the audit-log table by appending at the end: the prior
rows survive unchanged in place (no update, no delete). -/
theorem C3_audit_append_only :
    ∀ (op : Op) (s : DBState), s.auditLogs <+: (applyOp op s).auditLogs := by
  intro op s
  cases op with
  | auditLog e => exact ⟨[e], rfl⟩
  | auditValueChange vid a u ov nv pid did now => exact ⟨_, rfl⟩
  | auditStatusChange vid os ns u pid did now => exact ⟨_, rfl⟩
  | auditComment vid cid a u c pid now => exact ⟨_, rfl⟩
  | auditReadProject p l o => exact ⟨[], List.append_nil _⟩
  | auditReadValue v l => exact ⟨[], List.append_nil _⟩
  | auditReadRecent l => exact ⟨[], List.append_nil _⟩
  | extract pe fields pid docs now => exact ⟨_, rfl⟩
  | updateValue fieldOf vid nv st rv now =>
    simp only [applyOp, updateValueState]
    cases hf : s.values.find? (fun r => r.id = vid) with
    | none => simp only [hf]; exact ⟨[], List.append_nil _⟩
    | some ev => simp only [hf]; exact ⟨_, rfl⟩
  | bulkApprove ids reviewer now => exact bulkStatusFold_extends "approved" reviewer now ids (s, [])
  | bulkReject ids reviewer now => exact bulkStatusFold_extends "rejected" reviewer now ids (s, [])
  | getOrCreateSettings pid =>
    simp only [applyOp]
    cases hg : getOrCreateSettingsState s pid with
    | ok s2 =>
      refine ⟨[], ?_⟩
      simp [getOrCreateSettings_auditLogs s pid s2 hg]
    | error e => exact ⟨[], List.append_nil _⟩
  | updateSettings pid en th nc nl lt =>
    simp only [applyOp]
    cases hg : getOrCreateSettingsState s pid with
    | ok s2 =>
      refine ⟨[], ?_⟩
      simp [getOrCreateSettings_auditLogs s pid s2 hg]
    | error e => exact ⟨[], List.append_nil _⟩

/-- Helper, purging against no document ids keeps every row. -/
theorem purgeValues_nil (rows : List ExtractedValue) (pid : ℕ) :
    purgeValues rows pid [] = rows := by
  simp [purgeValues]

/-- Helper, purging distributes over appended row lists. -/
theorem purgeValues_append (a b : List ExtractedValue) (pid : ℕ) (ids : List ℕ) :
    purgeValues (a ++ b) pid ids = purgeValues a pid ids ++ purgeValues b pid ids := by
  simp [purgeValues]

/-- Helper, deleting one (document, project) pair then purging equals
purging with the document id added. -/
theorem purgeValues_delete (rows : List ExtractedValue) (docId pid : ℕ) (ids : List ℕ) :
    purgeValues (deleteDocProjectValues rows docId pid) pid ids =
      purgeValues rows pid (docId :: ids) := by
  rw [purgeValues, deleteDocProjectValues, purgeValues, List.filter_filter]
  apply List.filter_congr
  intro r _
  by_cases h1 : r.document_id = docId <;> by_cases h2 : r.project_id = pid <;>
    simp [h1, h2, List.mem_cons]

/-- Helper, purging twice with the same keys is purging once. -/
theorem purgeValues_idem (rows : List ExtractedValue) (pid : ℕ) (ids : List ℕ) :
    purgeValues (purgeValues rows pid ids) pid ids = purgeValues rows pid ids := by
  rw [purgeValues, purgeValues, List.filter_filter]
  apply List.filter_congr
  intro r _
  by_cases h : (r.project_id = pid ∧ r.document_id ∈ ids) <;> simp [h]

/-- Helper, membership in the concatenated back-end outputs. -/
theorem mem_concatBackend (backend : Document → List ExtractedValue) :
    ∀ (ds : List Document) (r : ExtractedValue),
      r ∈ concatBackend backend ds ↔ ∃ d ∈ ds, r ∈ backend d := by
  intro ds r
  induction ds with
  | nil => simp [concatBackend]
  | cons a rest ih =>
    simp [concatBackend, List.mem_append, ih, List.mem_cons, exists_eq_or_imp]

/-- Helper, one run's freshly inserted rows are all keyed by a processed
document and the project, so the next run's purge removes exactly them. -/
theorem purgeValues_concatBackend (backend : Document → List ExtractedValue)
    (pid : ℕ) (docs : List Document)
    (hkey : ∀ d ∈ docs, ∀ r ∈ backend d, r.document_id = d.id ∧ r.project_id = pid) :
    purgeValues (concatBackend backend (docs.filter processedDoc)) pid
      (processedIds docs) = [] := by
  rw [purgeValues]
  apply List.filter_eq_nil.mpr
  intro r hr
  obtain ⟨d, hd, hrd⟩ := (mem_concatBackend backend _ r).mp hr
  have hk := hkey d (List.mem_filter.mp hd).1 r hrd
  have hdin : r.document_id ∈ processedIds docs := by
    rw [hk.1]
    exact List.mem_map.mpr ⟨d, hd, rfl⟩
  simp [hk.2, hdin]

/-- Helper, rows built by the pattern path carry the processed document's
id and the project id. -/
theorem patternBackend_keys (pe : PatternExtractFn) (fields : List TemplateField)
    (pid : ℕ) (ps : Option ProjectSettings) (now : ℕ) (d : Document)
    (r : ExtractedValue) (hr : r ∈ extractWithPatterns pe d fields pid ps now) :
    r.document_id = d.id ∧ r.project_id = pid := by
  obtain ⟨f, _, rfl⟩ := List.mem_map.mp hr
  exact ⟨rfl, rfl⟩

/-- Helper, the shape of one `extract_for_project` run over the value
table: the surviving old rows (those not keyed by a processed document and
the project) followed by the concatenated fresh rows. -/
theorem extraction_run_characterization (backend : Document → List ExtractedValue)
    (pid : ℕ) :
    ∀ (docs : List Document) (rows : List ExtractedValue),
      (∀ d ∈ docs, ∀ r ∈ backend d, r.document_id = d.id ∧ r.project_id = pid) →
      (processedIds docs).Nodup →
      extractForProjectValues backend pid docs rows =
        purgeValues rows pid (processedIds docs) ++
          concatBackend backend (docs.filter processedDoc) := by
  intro docs
  induction docs with
  | nil =>
    intro rows _ _
    simp [extractForProjectValues, processedIds, concatBackend, purgeValues_nil]
  | cons d rest ih =>
    intro rows hkey hnd
    have hkeyr : ∀ d2 ∈ rest, ∀ r ∈ backend d2, r.document_id = d2.id ∧ r.project_id = pid :=
      fun d2 h2 => hkey d2 (List.mem_cons_of_mem _ h2)
    by_cases hd : processedDoc d
    · have hids : processedIds (d :: rest) = d.id :: processedIds rest := by
        simp [processedIds, List.filter_cons, hd]
      rw [hids] at hnd
      have hndr : (processedIds rest).Nodup := hnd.of_cons
      have hdid : d.id ∉ processedIds rest := (List.nodup_cons.mp hnd).1
      have hstep : extractForProjectValues backend pid (d :: rest) rows =
          extractForProjectValues backend pid rest
            (deleteDocProjectValues rows d.id pid ++ backend d) := by
        simp only [extractForProjectValues, List.foldl_cons, hd, if_true]
      rw [hstep, ih _ hkeyr hndr, hids]
      have hfilt : (d :: rest).filter processedDoc = d :: rest.filter processedDoc := by
        simp [List.filter_cons, hd]
      rw [hfilt,
        show concatBackend backend (d :: rest.filter processedDoc) =
          backend d ++ concatBackend backend (rest.filter processedDoc) from rfl,
        purgeValues_append, purgeValues_delete]
      have hB : purgeValues (backend d) pid (processedIds rest) = backend d := by
        rw [purgeValues]
        apply List.filter_eq_self.mpr
        intro r hr
        have hk := hkey d (List.mem_cons_self _ _) r hr
        simp [hk.1, hk.2, hdid]
      rw [hB, List.append_assoc]
    · have hids : processedIds (d :: rest) = processedIds rest := by
        simp [processedIds, List.filter_cons, hd]
      rw [hids] at hnd
      have hstep : extractForProjectValues backend pid (d :: rest) rows =
          extractForProjectValues backend pid rest rows := by
        simp only [extractForProjectValues, List.foldl_cons, hd, Bool.false_eq_true, if_false]
      have hfilt : (d :: rest).filter processedDoc = rest.filter processedDoc := by
        simp [List.filter_cons, hd]
      rw [hstep, ih _ hkeyr hnd, hids, hfilt]

/-- Helper, filtering the concatenated outputs by one document's key
returns exactly that document's output, given pairwise distinct ids. -/
theorem filter_concatBackend (backend : Document → List ExtractedValue) (pid : ℕ) :
    ∀ (ds : List Document) (d : Document),
      (ds.map Document.id).Nodup →
      (∀ d2 ∈ ds, ∀ r ∈ backend d2, r.document_id = d2.id ∧ r.project_id = pid) →
      d ∈ ds →
      (concatBackend backend ds).filter
        (fun r => r.document_id = d.id ∧ r.project_id = pid) = backend d := by
  intro ds
  induction ds with
  | nil => intro d _ _ hd; exact absurd hd (List.not_mem_nil _)
  | cons a rest ih =>
    intro d hnd hkey hd
    rw [show concatBackend backend (a :: rest) =
          backend a ++ concatBackend backend rest from rfl,
        List.filter_append]
    rw [List.map_cons] at hnd
    have hnda : a.id ∉ rest.map Document.id := (List.nodup_cons.mp hnd).1
    have hndr : (rest.map Document.id).Nodup := (List.nodup_cons.mp hnd).2
    have hkeyr : ∀ d2 ∈ rest, ∀ r ∈ backend d2, r.document_id = d2.id ∧ r.project_id = pid :=
      fun d2 h2 => hkey d2 (List.mem_cons_of_mem _ h2)
    rcases List.mem_cons.mp hd with heq | hmem
    · subst heq
      have h1 : (backend d).filter
          (fun r => r.document_id = d.id ∧ r.project_id = pid) = backend d := by
        apply List.filter_eq_self.mpr
        intro r hr
        have hk := hkey d (List.mem_cons_self _ _) r hr
        simp [hk.1, hk.2]
      have h2 : (concatBackend backend rest).filter
          (fun r => r.document_id = d.id ∧ r.project_id = pid) = [] := by
        apply List.filter_eq_nil.mpr
        intro r hr
        obtain ⟨d2, hd2, hrd2⟩ := (mem_concatBackend backend _ r).mp hr
        have hk := hkeyr d2 hd2 r hrd2
        have hne : d2.id ≠ d.id := by
          intro he
          exact hnda (he ▸ List.mem_map.mpr ⟨d2, hd2, rfl⟩)
        simp [hk.1, hne]
      rw [h1, h2, List.append_nil]
    · have hne : a.id ≠ d.id := by
        intro he
        exact hnda (he ▸ List.mem_map.mpr ⟨d, hmem, rfl⟩)
      have h1 : (backend a).filter
          (fun r => r.document_id = d.id ∧ r.project_id = pid) = [] := by
        apply List.filter_eq_nil.mpr
        intro r hr
        have hk := hkey a (List.mem_cons_self _ _) r hr
        simp [hk.1, hne]
      rw [h1, ih d hndr hkeyr hmem, List.nil_append]

/-- C2: one pattern-path extraction run deletes the prior rows of every
processed (document, project) pair before inserting one fresh row per
template field, so a second run over the same document set reproduces the
value table exactly (same rows, hence the same count — replace, not
accumulate), and within one run's generation a processed document holds at
most one row per template field. -/
theorem C2_reextraction_replaces :
    ∀ (pe : PatternExtractFn) (fields : List TemplateField) (ps : Option ProjectSettings)
      (now pid : ℕ) (docs : List Document) (rows : List ExtractedValue),
      (processedIds docs).Nodup →
      (extractForProjectValues (fun d => extractWithPatterns pe d fields pid ps now) pid docs
          (extractForProjectValues (fun d => extractWithPatterns pe d fields pid ps now)
            pid docs rows) =
        extractForProjectValues (fun d => extractWithPatterns pe d fields pid ps now)
          pid docs rows) ∧
      ((extractForProjectValues (fun d => extractWithPatterns pe d fields pid ps now) pid docs
          (extractForProjectValues (fun d => extractWithPatterns pe d fields pid ps now)
            pid docs rows)).length =
        (extractForProjectValues (fun d => extractWithPatterns pe d fields pid ps now)
          pid docs rows).length) ∧
      ((fields.map TemplateField.id).Nodup →
        ∀ d ∈ docs, processedDoc d = true →
          (((extractForProjectValues (fun d2 => extractWithPatterns pe d2 fields pid ps now)
              pid docs rows).filter
              (fun r => r.document_id = d.id ∧ r.project_id = pid)).map
            (fun r => r.template_field_id)).Nodup) := by
  intro pe fields ps now pid docs rows hnd
  have hkey : ∀ d ∈ docs, ∀ r ∈ (fun d2 => extractWithPatterns pe d2 fields pid ps now) d,
      r.document_id = d.id ∧ r.project_id = pid :=
    fun d _ r hr => patternBackend_keys pe fields pid ps now d r hr
  have h1 := extraction_run_characterization
    (fun d2 => extractWithPatterns pe d2 fields pid ps now) pid docs rows hkey hnd
  have h2 := extraction_run_characterization
    (fun d2 => extractWithPatterns pe d2 fields pid ps now) pid docs
    (extractForProjectValues (fun d2 => extractWithPatterns pe d2 fields pid ps now)
      pid docs rows) hkey hnd
  have hmain : extractForProjectValues (fun d => extractWithPatterns pe d fields pid ps now)
      pid docs
      (extractForProjectValues (fun d => extractWithPatterns pe d fields pid ps now)
        pid docs rows) =
      extractForProjectValues (fun d => extractWithPatterns pe d fields pid ps now)
        pid docs rows := by
    rw [h2, h1, purgeValues_append, purgeValues_idem,
      purgeValues_concatBackend _ pid docs hkey, List.append_nil]
  refine ⟨hmain, congrArg List.length hmain, fun hfld d hd hdp => ?_⟩
  rw [h1, List.filter_append]
  have hpz : (purgeValues rows pid (processedIds docs)).filter
      (fun r => r.document_id = d.id ∧ r.project_id = pid) = [] := by
    apply List.filter_eq_nil.mpr
    intro r hr
    have hmem := List.mem_filter.mp hr
    have hdin : d.id ∈ processedIds docs :=
      List.mem_map.mpr ⟨d, List.mem_filter.mpr ⟨hd, hdp⟩, rfl⟩
    have hsurv : ¬(r.project_id = pid ∧ r.document_id ∈ processedIds docs) := by
      have := hmem.2
      simp only [decide_eq_true_eq] at this
      exact this
    simp only [decide_eq_true_eq]
    rintro ⟨hdoc, hproj⟩
    exact hsurv ⟨hproj, hdoc ▸ hdin⟩
  have hcz := filter_concatBackend
    (fun d2 => extractWithPatterns pe d2 fields pid ps now) pid
    (docs.filter processedDoc) d (by simpa [processedIds] using hnd)
    (fun d2 hd2 => hkey d2 (List.mem_filter.mp hd2).1)
    (List.mem_filter.mpr ⟨hd, hdp⟩)
  rw [hpz, hcz, List.nil_append]
  have hmapeq : (extractWithPatterns pe d fields pid ps now).map
      (fun r => r.template_field_id) = fields.map TemplateField.id := by
    simp only [extractWithPatterns, List.map_map]
    rfl
  rw [hmapeq]
  exact hfld

/-- Witness for C2 on a one-document, one-field concrete run from the
empty table. -/
theorem C2_reextraction_replaces_witness :
    (processedIds [sampleDoc]).Nodup ∧
    (extractForProjectValues (fun d => extractWithPatterns samplePE d sampleFields 1 none 3)
        1 [sampleDoc]
        (extractForProjectValues (fun d => extractWithPatterns samplePE d sampleFields 1 none 3)
          1 [sampleDoc] []) =
      extractForProjectValues (fun d => extractWithPatterns samplePE d sampleFields 1 none 3)
        1 [sampleDoc] []) ∧
    (((extractForProjectValues (fun d2 => extractWithPatterns samplePE d2 sampleFields 1 none 3)
        1 [sampleDoc] []).filter
        (fun r => r.document_id = sampleDoc.id ∧ r.project_id = 1)).map
      (fun r => r.template_field_id)).Nodup := by
  have h := C2_reextraction_replaces samplePE sampleFields none 3 1 [sampleDoc] [] (by decide)
  have hf : (sampleFields.map TemplateField.id).Nodup := by decide
  have hmem : sampleDoc ∈ [sampleDoc] := List.mem_singleton.mpr rfl
  have hproc : processedDoc sampleDoc = true := by decide
  exact ⟨by decide, h.1, h.2.2 hf sampleDoc hmem hproc⟩

end LegalReview
